import Mathlib

set_option allowUnsafeReducibility true

attribute [semireducible] Rat.add Rat.sub Rat.mul Rat.inv

/-!
Shallow embedding of the probo binary-options exchange core
(`src/unnamed/part_002`, the in-memory engine behind the HTTP handlers).

Modelling conventions:
* decimal.js `Decimal` values are exact decimals; we model them as `ℚ`
  (all arithmetic in the source is `plus/minus/times/dividedBy`, which are
  exact on these operands; `toDecimalPlaces(2)` uses decimal.js's default
  rounding mode `ROUND_HALF_UP`, modelled by `roundHalfUp2`).
* The three module-level JS objects `INR_BALANCES`, `ORDERBOOK`,
  `STOCK_BALANCES` are modelled as insertion-ordered association lists,
  matching JS object key insertion/enumeration order for the non-numeric
  keys the engine uses; `obj[k] = v` updates in place or appends, `delete`
  removes the entry.
* Balance records referenced through a user id are modelled with
  zero-defaults (`getD`): on every API-reachable state a user who owns a
  resting order has been through `initialiseUserBalances`, so the default
  is never exercised there.
* The one JS `TypeError` that is reachable through the API (reading a
  deleted buyer entry inside `executeTrade`, and the missing per-symbol
  stock record inside `updateBalancesAfterCancel`) is modelled explicitly:
  the engine result is `ExecStatus.crashed` / `Res.failed .runtimeError`
  and the state keeps exactly the mutations performed before the throw,
  as the `try`/`catch` in the handlers does.
-/

namespace Probo

/-! ## Association lists (JS objects) -/

variable {α : Type} {β : Type} [DecidableEq α]

/-- `obj[k]` : first binding of `k`, if any. -/
def alookup : List (α × β) → α → Option β
  | [], _ => none
  | (a, b) :: t, k => if a = k then some b else alookup t k

/-- `obj[k] = v` : replace the binding in place, else append. -/
def aset : List (α × β) → α → β → List (α × β)
  | [], k, v => [(k, v)]
  | (a, b) :: t, k, v => if a = k then (a, v) :: t else (a, b) :: aset t k v

/-- `obj[k] = f(obj[k] ?? d)` : modify in place, else append `f d`. -/
def aupd : List (α × β) → α → (β → β) → β → List (α × β)
  | [], k, f, d => [(k, f d)]
  | (a, b) :: t, k, f, d => if a = k then (a, f b) :: t else (a, b) :: aupd t k f d

/-- `delete obj[k]` : drop the first binding of `k`. -/
def aerase : List (α × β) → α → List (α × β)
  | [], _ => []
  | (a, b) :: t, k => if a = k then t else (a, b) :: aerase t k

/-- ensure a key exists, appending a default binding if absent
(`if (!obj[k]) obj[k] = d`). -/
def aensure (l : List (α × β)) (k : α) (d : β) : List (α × β) :=
  if (alookup l k).isSome then l else l ++ [(k, d)]

/-! ## Data model -/

/-- The two complementary outcome tokens. -/
inductive Outcome
  | yes
  | no
deriving DecidableEq, Repr

/-- `stockType === "yes" ? "no" : "yes"`. -/
def Outcome.flip : Outcome → Outcome
  | .yes => .no
  | .no => .yes

/-- Per-user INR record `{balance, locked}` (free and locked cash). -/
structure CashBal where
  balance : ℚ
  locked : ℚ
deriving DecidableEq, Repr

/-- Per-outcome stock record `{quantity, locked}` (free and locked tokens). -/
structure OutcomeBal where
  quantity : ℚ
  locked : ℚ
deriving DecidableEq, Repr

/-- Per-(user, symbol) stock record with a `yes` and a `no` side. -/
structure StockBal where
  yes : OutcomeBal
  no : OutcomeBal
deriving DecidableEq, Repr

def zeroStock : StockBal := ⟨⟨0, 0⟩, ⟨0, 0⟩⟩

def StockBal.get (b : StockBal) : Outcome → OutcomeBal
  | .yes => b.yes
  | .no => b.no

def StockBal.set (b : StockBal) : Outcome → OutcomeBal → StockBal
  | .yes, v => { b with yes := v }
  | .no, v => { b with no := v }

/-- One price level: aggregate `total` plus per-user resting quantities. -/
structure PriceLevel where
  total : ℚ
  orders : List (String × ℚ)
deriving DecidableEq, Repr

/-- One symbol's book: a `yes` side and a `no` side, price → level. -/
structure SymBook where
  yes : List (ℚ × PriceLevel)
  no : List (ℚ × PriceLevel)
deriving DecidableEq, Repr

def emptyBook : SymBook := ⟨[], []⟩

def SymBook.side (bk : SymBook) : Outcome → List (ℚ × PriceLevel)
  | .yes => bk.yes
  | .no => bk.no

def SymBook.setSide (bk : SymBook) : Outcome → List (ℚ × PriceLevel) → SymBook
  | .yes, sd => { bk with yes := sd }
  | .no, sd => { bk with no := sd }

/-- The whole in-memory state: `INR_BALANCES`, `ORDERBOOK`, `STOCK_BALANCES`. -/
structure Exchange where
  inr : List (String × CashBal)
  book : List (String × SymBook)
  stock : List (String × List (String × StockBal))
deriving DecidableEq, Repr

/-! ### Observers (with the zero defaults described in the header) -/

def cashOf (ex : Exchange) (u : String) : CashBal :=
  (alookup ex.inr u).getD ⟨0, 0⟩

def stocksOf (ex : Exchange) (u : String) : List (String × StockBal) :=
  (alookup ex.stock u).getD []

def posOf (ex : Exchange) (u : String) (s : String) : StockBal :=
  (alookup (stocksOf ex u) s).getD zeroStock

def bookOf (ex : Exchange) (s : String) : SymBook :=
  (alookup ex.book s).getD emptyBook

/-- `u`'s resting quantity at `(s, S, p)` (0 if none). -/
def restingOf (ex : Exchange) (s : String) (S : Outcome) (p : ℚ) (u : String) : ℚ :=
  (alookup ((alookup ((bookOf ex s).side S) p).getD ⟨0, []⟩).orders u).getD 0

def cbTotal (c : CashBal) : ℚ := c.balance + c.locked

/-- Sum over all users of `cash_free + cash_locked`. -/
def totalCash (ex : Exchange) : ℚ :=
  (ex.inr.map (fun e => cbTotal e.2)).sum

/-! ### Balance update helpers -/

def updCash (ex : Exchange) (u : String) (f : CashBal → CashBal) : Exchange :=
  { ex with inr := aupd ex.inr u f ⟨0, 0⟩ }

def updStock (ex : Exchange) (u : String) (s : String) (f : StockBal → StockBal) : Exchange :=
  { ex with stock := aupd ex.stock u (fun m => aupd m s f zeroStock) [] }

/-! ## Engine operations (`src/unnamed/part_002`) -/

/-- `isValidPrice` : decimal price within the closed interval [1, 10]. -/
def isValidPrice (p : ℚ) : Bool := decide (1 ≤ p ∧ p ≤ 10)

/-- `Decimal.min` on two exact decimals. -/
def qmin (a b : ℚ) : ℚ := if a ≤ b then a else b

/-- `validateInput` : all fields truthy, `quantity > 0`, price in range.
(The source only checks `stockType` for truthiness; the embedding's
`Outcome` argument is always one of the two valid strings.) -/
def validateInput (u s : String) (q p : ℚ) : Bool :=
  decide (u ≠ "") && decide (s ≠ "") && decide (0 < q) && isValidPrice p

/-- `initialiseUserBalances` : create zero-cash and empty-stock records on
first touch. -/
def initialiseUserBalances (ex : Exchange) (u : String) : Exchange :=
  { ex with
    inr := aensure ex.inr u ⟨0, 0⟩
    stock := aensure ex.stock u [] }

/-- `ensureStockBalanceExists` : create the zero per-symbol record on demand. -/
def ensureStockBalanceExists (ex : Exchange) (u : String) (s : String) : Exchange :=
  { ex with stock := aupd ex.stock u (fun m => aensure m s zeroStock) [] }

/-- `updateOrderbook` : add `qty` for `u` at `(s, side, p)`, growing the
level `total` and the per-user entry (creating book / level / entry on
demand). -/
def updateOrderbook (ex : Exchange) (s : String) (side : Outcome) (p qty : ℚ)
    (u : String) : Exchange :=
  { ex with
    book := aupd ex.book s
      (fun bk =>
        let sd := aensure (bk.side side) p ⟨0, []⟩
        bk.setSide side
          (aupd sd p
            (fun lvl =>
              ⟨lvl.total + qty, aupd (aensure lvl.orders u 0) u (· + qty) 0⟩)
            ⟨0, []⟩))
      emptyBook }

/-- `updateBalancesAfterTrade` : settle one pairwise match of `qty` tokens
at `price`. Note the source always uses the `yes` stock fields of both
parties, and credits the seller's *free* cash. -/
def updateBalancesAfterTrade (ex : Exchange) (buyerId sellerId : String)
    (s : String) (price qty : ℚ) : Exchange :=
  let ex1 := updCash ex buyerId (fun c => { c with locked := c.locked - qty * price })
  let ex2 := updCash ex1 sellerId (fun c => { c with balance := c.balance + qty * price })
  let ex3 := ensureStockBalanceExists ex2 buyerId s
  let ex4 := ensureStockBalanceExists ex3 sellerId s
  let ex5 := updStock ex4 buyerId s
    (fun b => { b with yes := { b.yes with quantity := b.yes.quantity + qty } })
  updStock ex5 sellerId s
    (fun b => { b with yes := { b.yes with locked := b.yes.locked - qty } })

/-- One recorded call of `updateBalancesAfterTrade`. -/
structure Trade where
  buyer : String
  seller : String
  price : ℚ
  qty : ℚ
deriving DecidableEq, Repr

/-- How a loop of `executeTrade` ended: fell through, hit the
`quantity.eq(0)` return, or threw the `TypeError` of reading a deleted
buyer entry. -/
inductive ExecStatus
  | normal
  | returned
  | crashed
deriving DecidableEq, Repr

/-- Result of an `executeTrade` loop: the exchange, the two live order
maps, the remaining cap, the settlement log, and how the loop ended. -/
structure TradeRes where
  ex : Exchange
  buyers : List (String × ℚ)
  sellers : List (String × ℚ)
  qty : ℚ
  log : List Trade
  status : ExecStatus
deriving DecidableEq, Repr

/-- Inner loop of `executeTrade` over a snapshot (`Object.entries`) of the
seller orders, for one buyer entry `(buyerId, staleBuy)` of the outer
snapshot. The fresh buyer value is re-read per iteration; if it was
deleted, the source throws (`undefined.minus`). -/
def tradeInner (s : String) (price : ℚ) (buyerId : String) (staleBuy : ℚ) :
    List (String × ℚ) → Exchange → List (String × ℚ) → List (String × ℚ) → ℚ →
    TradeRes
  | [], ex, buyers, sellers, qty => ⟨ex, buyers, sellers, qty, [], .normal⟩
  | (sellerId, sellQty) :: rest, ex, buyers, sellers, qty =>
    let t := qmin (qmin staleBuy sellQty) qty
    let ex1 := updateBalancesAfterTrade ex buyerId sellerId s price t
    match alookup buyers buyerId with
    | none => ⟨ex1, buyers, sellers, qty, [⟨buyerId, sellerId, price, t⟩], .crashed⟩
    | some bq =>
      let buyers1 := aset buyers buyerId (bq - t)
      let sellers1 := aset sellers sellerId (sellQty - t)
      let buyers2 := if bq - t = 0 then aerase buyers1 buyerId else buyers1
      let sellers2 := if sellQty - t = 0 then aerase sellers1 sellerId else sellers1
      if qty - t = 0 then
        ⟨ex1, buyers2, sellers2, qty - t, [⟨buyerId, sellerId, price, t⟩], .returned⟩
      else
        let r := tradeInner s price buyerId staleBuy rest ex1 buyers2 sellers2 (qty - t)
        { r with log := ⟨buyerId, sellerId, price, t⟩ :: r.log }

/-- Outer loop of `executeTrade` over a snapshot of the buyer orders.
Each outer iteration re-snapshots the current seller orders. -/
def tradeOuter (s : String) (price : ℚ) :
    List (String × ℚ) → Exchange → List (String × ℚ) → List (String × ℚ) → ℚ →
    TradeRes
  | [], ex, buyers, sellers, qty => ⟨ex, buyers, sellers, qty, [], .normal⟩
  | (buyerId, staleBuy) :: rest, ex, buyers, sellers, qty =>
    let r1 := tradeInner s price buyerId staleBuy sellers ex buyers sellers qty
    match r1.status with
    | .normal =>
      let r2 := tradeOuter s price rest r1.ex r1.buyers r1.sellers r1.qty
      { r2 with log := r1.log ++ r2.log }
    | _ => r1

/-- `executeTrade` : pairwise matching of the buyer orders against the
seller orders, capped at `quantity`, settling each pair through
`updateBalancesAfterTrade`. -/
def executeTrade (ex : Exchange) (s : String) (price qty : ℚ)
    (buyers sellers : List (String × ℚ)) : TradeRes :=
  tradeOuter s price buyers ex buyers sellers qty

/-- Overwrite the per-user order map of the level at `(s, side, p)`
(the in-place mutation `executeTrade` performs through the live level
reference; the level `total` is untouched). -/
def setLevelOrders (ex : Exchange) (s : String) (side : Outcome) (p : ℚ)
    (od : List (String × ℚ)) : Exchange :=
  { ex with
    book := aupd ex.book s
      (fun bk => bk.setSide side
        (aupd (bk.side side) p (fun lvl => { lvl with orders := od }) ⟨0, []⟩))
      emptyBook }

/-- Overwrite the `total` of the level at `(s, side, p)`. -/
def setLevelTotal (ex : Exchange) (s : String) (side : Outcome) (p t : ℚ) : Exchange :=
  { ex with
    book := aupd ex.book s
      (fun bk => bk.setSide side
        (aupd (bk.side side) p (fun lvl => { lvl with total := t }) ⟨0, []⟩))
      emptyBook }

/-- Remove the level at `(s, side, p)` (`delete orders[price]`). -/
def eraseLevel (ex : Exchange) (s : String) (side : Outcome) (p : ℚ) : Exchange :=
  { ex with
    book := aupd ex.book s
      (fun bk => bk.setSide side (aerase (bk.side side) p))
      emptyBook }

/-- Result of the taker pass: the exchange, the unmatched remainder, the
cash spent on matches, the settlement log and a crash flag. -/
structure TakerRes where
  ex : Exchange
  remaining : ℚ
  spent : ℚ
  log : List Trade
  crashed : Bool
deriving DecidableEq, Repr

/-- Ascending-price loop of `matchBuyOrder` over the sorted opposite-side
price list; stops at the first price above the taker limit `p`, or when
the remaining quantity reaches zero. The level `total` is read to size
the match but never written back (the source omits it). -/
def takerLoop (s : String) (S : Outcome) (p : ℚ) (u : String) :
    List ℚ → Exchange → ℚ → ℚ → TakerRes
  | [], ex, remaining, spent => ⟨ex, remaining, spent, [], false⟩
  | price :: rest, ex, remaining, spent =>
    if p < price then ⟨ex, remaining, spent, [], false⟩
    else
      let lvl := (alookup ((bookOf ex s).side S.flip) price).getD ⟨0, []⟩
      let matched := qmin remaining lvl.total
      let r1 := executeTrade ex s price matched [(u, matched)] lvl.orders
      let ex2 := setLevelOrders r1.ex s S.flip price r1.sellers
      match r1.status with
      | .crashed => ⟨ex2, remaining, spent, r1.log, true⟩
      | _ =>
        if remaining - matched = 0 then
          ⟨ex2, remaining - matched, spent + matched * price, r1.log, false⟩
        else
          let r3 := takerLoop s S p u rest ex2 (remaining - matched)
            (spent + matched * price)
          { r3 with log := r1.log ++ r3.log }

/-- `matchBuyOrder` : the taker pass of a buy — walk the complement
outcome's levels in ascending price order. -/
def matchBuyOrder (ex : Exchange) (s : String) (S : Outcome) (p q : ℚ)
    (u : String) : TakerRes :=
  let prices := (((bookOf ex s).side S.flip).map Prod.fst).insertionSort (· ≤ ·)
  takerLoop s S p u prices ex q 0

/-- `placePendingBuyOrder` : rest the residual and move its notional from
free to locked cash. -/
def placePendingBuyOrder (ex : Exchange) (s : String) (S : Outcome)
    (p qty : ℚ) (u : String) : Exchange :=
  let ex1 := updateOrderbook ex s S p qty u
  updCash ex1 u (fun c => ⟨c.balance - qty * p, c.locked + qty * p⟩)

/-- Error kinds surfaced by the handlers' `catch` blocks. -/
inductive Err
  | invalidInput
  | symbolNotFound
  | insufficientBalance
  | insufficientStock
  | orderNotFound
  | runtimeError
deriving DecidableEq, Repr

/-- Outcome of one handler call. -/
inductive Res
  | fullMatch
  | partMatch
  | sellRested
  | canceled
  | minted
  | failed (e : Err)
deriving DecidableEq, Repr

/-- `buyStock` : validate, require the symbol, auto-create the user,
check (but do not lock) the full notional, run the taker pass, rest any
residual, then debit the free balance by the cash spent on matches. -/
def buyStock (ex0 : Exchange) (u s : String) (q p : ℚ) (S : Outcome) :
    Exchange × Res :=
  if ¬ validateInput u s q p then (ex0, .failed .invalidInput)
  else if (alookup ex0.book s).isNone then (ex0, .failed .symbolNotFound)
  else
    let ex1 := initialiseUserBalances ex0 u
    let totalCost := q * p
    if (cashOf ex1 u).balance < totalCost then (ex1, .failed .insufficientBalance)
    else
      let r := matchBuyOrder ex1 s S p q u
      if r.crashed then (r.ex, .failed .runtimeError)
      else
        let ex3 :=
          if 0 < r.remaining then placePendingBuyOrder r.ex s S p r.remaining u else r.ex
        let ex4 := updCash ex3 u (fun c => { c with balance := c.balance - r.spent })
        (ex4, if r.remaining = 0 then .fullMatch else .partMatch)

/-- decimal.js `toDecimalPlaces(2)` under the default rounding mode
`ROUND_HALF_UP` (ties away from zero). -/
def roundHalfUp2 (x : ℚ) : ℚ :=
  (if 0 ≤ x then (⌊x * 100 + 1 / 2⌋ : ℚ) else -(⌊-(x * 100) + 1 / 2⌋ : ℚ)) / 100

/-- Modelled from the spec: `round_half_even(·, 2)` — round to two
decimal places, ties to the nearest even hundredth (the rounding §4.4.3
claims for the book-sweep trade price). -/
def roundHalfEven2 (x : ℚ) : ℚ :=
  let f : ℤ := ⌊x * 100⌋
  let r : ℚ := x * 100 - f
  ((if r < 1 / 2 then f else if 1 / 2 < r then f + 1
    else if Even f then f else f + 1 : ℤ) : ℚ) / 100

/-- Result of the book-sweep loop. -/
structure SweepRes where
  ex : Exchange
  log : List Trade
  crashed : Bool
deriving DecidableEq, Repr

/-- `while` loop of `matchOrders` over the sorted, range-filtered price
lists. Each crossing iteration settles `min` of the two head totals at
the half-up-rounded midpoint, writes the orders and totals back, and
drops a head exactly when its total reaches zero (which, with
`k = min`, happens for the head whose total is the smaller one).
Structural recursion on a fuel argument; every crossing iteration
consumes at least one queue head, so the fuel `matchOrders` passes
(`|ys| + |ns| + 1`) never runs out and the `fuel = 0` case is dead. -/
def sweepLoop (s : String) :
    Nat → Exchange → List ℚ → List ℚ → SweepRes
  | 0, ex, _, _ => ⟨ex, [], true⟩
  | _ + 1, ex, [], _ => ⟨ex, [], false⟩
  | _ + 1, ex, _ :: _, [] => ⟨ex, [], false⟩
  | fuel + 1, ex, py :: ytl, pn :: ntl =>
    if pn ≤ py then
      let bk := bookOf ex s
      let yl := (alookup bk.yes py).getD ⟨0, []⟩
      let nl := (alookup bk.no pn).getD ⟨0, []⟩
      let m := roundHalfUp2 ((py + pn) / 2)
      let k := qmin yl.total nl.total
      let r1 := executeTrade ex s m k yl.orders nl.orders
      let ex2 := setLevelOrders (setLevelOrders r1.ex s .yes py r1.buyers) s .no pn r1.sellers
      if r1.status = ExecStatus.crashed then ⟨ex2, r1.log, true⟩
      else
        let ex3 := setLevelTotal (setLevelTotal ex2 s .yes py (yl.total - k)) s .no pn
          (nl.total - k)
        if yl.total ≤ nl.total then
          if nl.total ≤ yl.total then
            let r5 := sweepLoop s fuel (eraseLevel (eraseLevel ex3 s .yes py) s .no pn) ytl ntl
            { r5 with log := r1.log ++ r5.log }
          else
            let r5 := sweepLoop s fuel (eraseLevel ex3 s .yes py) ytl (pn :: ntl)
            { r5 with log := r1.log ++ r5.log }
        else
          let r5 := sweepLoop s fuel (eraseLevel ex3 s .no pn) (py :: ytl) ntl
          { r5 with log := r1.log ++ r5.log }
    else ⟨ex, [], false⟩

/-- The YES-side sweep queue: book prices filtered to [1, 10], sorted
descending. -/
def yesQueue (ex : Exchange) (s : String) : List ℚ :=
  ((((bookOf ex s).yes.map Prod.fst).filter isValidPrice).insertionSort (· ≥ ·))

/-- The NO-side sweep queue: book prices filtered to [1, 10], sorted
ascending. -/
def noQueue (ex : Exchange) (s : String) : List ℚ :=
  ((((bookOf ex s).no.map Prod.fst).filter isValidPrice).insertionSort (· ≤ ·))

/-- `matchOrders` : the book-sweep pass pairing YES and NO resting buys. -/
def matchOrders (ex : Exchange) (s : String) : SweepRes :=
  if (alookup ex.book s).isNone then ⟨ex, [], false⟩
  else
    sweepLoop s ((yesQueue ex s).length + (noQueue ex s).length + 1) ex
      (yesQueue ex s) (noQueue ex s)

/-- `placeSellOrder` : validate, require free inventory, move it to
locked, rest the order, then run the book-sweep. -/
def placeSellOrder (ex0 : Exchange) (u s : String) (q p : ℚ) (S : Outcome) :
    Exchange × Res :=
  if ¬ validateInput u s q p then (ex0, .failed .invalidInput)
  else
    let ex1 := initialiseUserBalances ex0 u
    match alookup (stocksOf ex1 u) s with
    | none => (ex1, .failed .insufficientStock)
    | some sb =>
      if (sb.get S).quantity < q then (ex1, .failed .insufficientStock)
      else
        let ex2 := updStock ex1 u s
          (fun b => b.set S ⟨(b.get S).quantity - q, (b.get S).locked + q⟩)
        let ex3 := updateOrderbook ex2 s S p q u
        let r := matchOrders ex3 s
        if r.crashed then (r.ex, .failed .runtimeError) else (r.ex, .sellRested)

/-- `updateOrderbookAfterCancel` : shrink the level and the user entry,
deleting each at zero. -/
def updateOrderbookAfterCancel (ex : Exchange) (s : String) (S : Outcome)
    (p qty : ℚ) (u : String) : Exchange :=
  { ex with
    book := aupd ex.book s
      (fun bk =>
        let sd := aupd (bk.side S) p
          (fun lvl => ⟨lvl.total - qty, aupd lvl.orders u (· - qty) 0⟩) ⟨0, []⟩
        let sd1 :=
          if (alookup ((alookup sd p).getD ⟨0, []⟩).orders u).getD 0 = 0 then
            aupd sd p (fun lvl => { lvl with orders := aerase lvl.orders u }) ⟨0, []⟩
          else sd
        let sd2 :=
          if ((alookup sd1 p).getD ⟨0, []⟩).total = 0 then aerase sd1 p else sd1
        bk.setSide S sd2)
      emptyBook }

/-- `updateBalancesAfterCancel` : the refund branches on the *outcome*:
`yes` unlocks cash, `no` unlocks inventory. The `no` branch reads the
per-symbol stock record without creating it, so a missing record throws. -/
def updateBalancesAfterCancel (ex : Exchange) (u s : String) (S : Outcome)
    (p qty : ℚ) : Exchange × Bool :=
  match S with
  | .yes =>
    (updCash ex u (fun c => ⟨c.balance + qty * p, c.locked - qty * p⟩), false)
  | .no =>
    if (alookup (stocksOf ex u) s).isNone then (ex, true)
    else
      (updStock ex u s
        (fun b => { b with no := ⟨b.no.quantity + qty, b.no.locked - qty⟩ }), false)

/-- `cancelOrder` : `ORDER_NOT_FOUND` unless `u` has an entry at
`(s, S, p)`; cancel `min(q, owned)`, update the book, then refund. -/
def cancelOrder (ex0 : Exchange) (u s : String) (q p : ℚ) (S : Outcome) :
    Exchange × Res :=
  if ¬ validateInput u s q p then (ex0, .failed .invalidInput)
  else
    match alookup ex0.book s with
    | none => (ex0, .failed .orderNotFound)
    | some bk =>
      match alookup (bk.side S) p with
      | none => (ex0, .failed .orderNotFound)
      | some lvl =>
        match alookup lvl.orders u with
        | none => (ex0, .failed .orderNotFound)
        | some owned =>
          let cq := qmin q owned
          let ex1 := updateOrderbookAfterCancel ex0 s S p cq u
          match updateBalancesAfterCancel ex1 u s S p cq with
          | (ex2, true) => (ex2, .failed .runtimeError)
          | (ex2, false) => (ex2, .canceled)

/-- `validateMintTokensInput` : as `validateInput` without a stock type. -/
def validateMintTokensInput (u s : String) (q p : ℚ) : Bool :=
  validateInput u s q p

/-- `updateBalancesAfterMinting` : debit free cash by the total cost and
credit `q` to both outcomes' free quantity, creating the per-symbol
record on demand. -/
def updateBalancesAfterMinting (ex : Exchange) (u s : String)
    (qty totalCost : ℚ) : Exchange :=
  let ex1 := updCash ex u (fun c => { c with balance := c.balance - totalCost })
  let ex2 := ensureStockBalanceExists ex1 u s
  let ex3 := updStock ex2 u s
    (fun b => { b with yes := { b.yes with quantity := b.yes.quantity + qty } })
  updStock ex3 u s
    (fun b => { b with no := { b.no with quantity := b.no.quantity + qty } })

/-- `mintTokens` : validate, auto-create the user, require free cash for
the full cost, then mint a YES/NO pair per unit. -/
def mintTokens (ex0 : Exchange) (u s : String) (q p : ℚ) : Exchange × Res :=
  if ¬ validateMintTokensInput u s q p then (ex0, .failed .invalidInput)
  else
    let ex1 := initialiseUserBalances ex0 u
    let totalCost := q * p
    if (cashOf ex1 u).balance < totalCost then (ex1, .failed .insufficientBalance)
    else (updateBalancesAfterMinting ex1 u s q totalCost, .minted)

/-- Replay a settlement log from a given state. -/
def applyTrades (s : String) (ex : Exchange) (log : List Trade) : Exchange :=
  log.foldl (fun e t => updateBalancesAfterTrade e t.buyer t.seller s t.price t.qty) ex

/-- Price keys of one book side that lie in the valid range [1, 10]. -/
def validKeys (sd : List (ℚ × PriceLevel)) : List ℚ :=
  (sd.map Prod.fst).filter isValidPrice

/-- Modelled from the spec (§4.4.3): the book bookkeeping of one
book-sweep crossing — both head levels get their maker maps replaced and
their totals reduced by `k = min` of the two totals, and a level whose
total reaches zero is removed (YES first, then NO, as the engine does). -/
def sweepBookStep (ex : Exchange) (s : String) (py pn : ℚ)
    (odY odN : List (String × ℚ)) : Exchange :=
  let ty := ((alookup (bookOf ex s).yes py).getD ⟨0, []⟩).total
  let tn := ((alookup (bookOf ex s).no pn).getD ⟨0, []⟩).total
  let k := qmin ty tn
  let e1 := setLevelOrders (setLevelOrders ex s .yes py odY) s .no pn odN
  let e2 := setLevelTotal (setLevelTotal e1 s .yes py (ty - k)) s .no pn (tn - k)
  let e3 := if ty - k = 0 then eraseLevel e2 s .yes py else e2
  if tn - k = 0 then eraseLevel e3 s .no pn else e3

/-- Modelled from the spec: the book-sweep algorithm of §4.4.3 as claim
C3 states it, with the one amendment its counterexample forces — the
trade price is the midpoint rounded *half-up* to 2 decimal places (the
decimal.js default), not half-even. While both sorted queues are
non-empty, with head prices `py` (highest YES bid) and `pn` (lowest NO
bid): if `py ≥ pn`, settle a trade of quantity `k = min` of the two head
level totals at price `roundHalfUp2 ((py+pn)/2)` (the per-maker
settlement detail is abstracted as an arbitrary settlement log priced
entirely at that midpoint), reduce both totals by `k` and remove a level
exactly when its total reaches zero, advancing its queue; if `py < pn`,
stop with no further trades. -/
inductive SweepR (s : String) : Exchange → List ℚ → List ℚ → Exchange → Prop
  | yesEmpty (ex : Exchange) (ns : List ℚ) : SweepR s ex [] ns ex
  | noEmpty (ex : Exchange) (ys : List ℚ) : SweepR s ex ys [] ex
  | stop (ex : Exchange) (py pn : ℚ) (ytl ntl : List ℚ) (h : py < pn) :
      SweepR s ex (py :: ytl) (pn :: ntl) ex
  | cross (ex exMid exF : Exchange) (py pn : ℚ) (ytl ntl : List ℚ)
      (odY odN : List (String × ℚ)) (log : List Trade)
      (hcross : pn ≤ py)
      (hprice : ∀ t ∈ log, t.price = roundHalfUp2 ((py + pn) / 2))
      (hinr : exMid.inr = (applyTrades s ex log).inr)
      (hstk : exMid.stock = (applyTrades s ex log).stock)
      (hbook : exMid.book = (sweepBookStep ex s py pn odY odN).book)
      (hrec : SweepR s exMid
        (if ((alookup (bookOf ex s).yes py).getD ⟨0, []⟩).total -
            qmin ((alookup (bookOf ex s).yes py).getD ⟨0, []⟩).total
              ((alookup (bookOf ex s).no pn).getD ⟨0, []⟩).total = 0
          then ytl else py :: ytl)
        (if ((alookup (bookOf ex s).no pn).getD ⟨0, []⟩).total -
            qmin ((alookup (bookOf ex s).yes py).getD ⟨0, []⟩).total
              ((alookup (bookOf ex s).no pn).getD ⟨0, []⟩).total = 0
          then ntl else pn :: ntl)
        exF) :
      SweepR s ex (py :: ytl) (pn :: ntl) exF

/-! ### Concrete scenario states

Each `exCn` is the input of claim n's concrete theorem. All of them
satisfy the book-lock invariants of §3 of the spec (resting sells are
backed by `qty_locked` of their outcome, resting buys by `cash_locked`
of `q*p`, levels aggregate their maker maps, prices lie in [1, 10]). -/

/-- Claim C1: maker `A` rests a NO-side sell of 10 @ 5 (NO `qty_locked`
10); taker `B` holds 100 free cash. -/
def exC1 : Exchange :=
  { inr := [("A", ⟨0, 0⟩), ("B", ⟨100, 0⟩)]
    book := [("s", ⟨[], [(5, ⟨10, [("A", 10)]⟩)]⟩)]
    stock := [("A", [("s", ⟨⟨0, 0⟩, ⟨0, 10⟩⟩)]), ("B", [])] }

/-- Claim C2: same shape as `exC1` — one resting NO-side maker, one YES
taker. -/
def exC2 : Exchange :=
  { inr := [("A", ⟨0, 0⟩), ("B", ⟨100, 0⟩)]
    book := [("s", ⟨[], [(5, ⟨10, [("A", 10)]⟩)]⟩)]
    stock := [("A", [("s", ⟨⟨0, 0⟩, ⟨0, 10⟩⟩)]), ("B", [])] }

/-- Claim C3: a YES bid at 1.14 and a NO bid at 1.11 rest; their
midpoint 1.125 is a rounding tie that half-up and half-even settle
differently. -/
def exC3 : Exchange :=
  { inr := [("A", ⟨0, 57/5⟩), ("B", ⟨0, 111/10⟩)]
    book := [("s", ⟨[(57/50, ⟨10, [("A", 10)]⟩)], [(111/100, ⟨10, [("B", 10)]⟩)]⟩)]
    stock := [("A", []), ("B", [])] }

/-- Claim C4: `u1` rests a YES buy of 50 @ 6 (cash locked 300), `u2` a
NO buy of 50 @ 5 (cash locked 250); the sweep crosses them at the
midpoint 5.5. -/
def exC4 : Exchange :=
  { inr := [("u1", ⟨0, 300⟩), ("u2", ⟨0, 250⟩)]
    book := [("s", ⟨[(6, ⟨50, [("u1", 50)]⟩)], [(5, ⟨50, [("u2", 50)]⟩)]⟩)]
    stock := [("u1", []), ("u2", [])] }

/-- Claim C5: one NO-side resting sell of 10 @ 5; the taker will consume
4 of it. -/
def exC5 : Exchange :=
  { inr := [("A", ⟨0, 0⟩), ("B", ⟨100, 0⟩)]
    book := [("s", ⟨[], [(5, ⟨10, [("A", 10)]⟩)]⟩)]
    stock := [("A", [("s", ⟨⟨0, 0⟩, ⟨0, 10⟩⟩)]), ("B", [])] }

/-- Claim C6: an empty book for `s`; two buys will rest crossing bids. -/
def exC6 : Exchange :=
  { inr := [("u1", ⟨1000, 0⟩), ("u2", ⟨1000, 0⟩)]
    book := [("s", ⟨[], []⟩)]
    stock := [] }

/-- Claim C6 witness state: a NO bid (user `B`) rests at 7; `E` owns one
free YES token and will rest a YES sell at 3 (no crossing: 3 < 7). -/
def exW6 : Exchange :=
  { inr := [("B", ⟨0, 35⟩), ("E", ⟨0, 0⟩)]
    book := [("s", ⟨[], [(7, ⟨5, [("B", 5)]⟩)]⟩)]
    stock := [("E", [("s", ⟨⟨1, 0⟩, ⟨0, 0⟩⟩)])] }

/-- Claim C7: crossed resting buys (YES {A:2, B:8} @ 6 against
NO {C:2, D:8} @ 5, each backed by locked cash); `E` owns one free NO
token. `E`'s sell triggers the sweep, whose second pairwise step reads
the deleted buyer entry `A` and throws. -/
def exC7 : Exchange :=
  { inr := [("A", ⟨0, 12⟩), ("B", ⟨0, 48⟩), ("C", ⟨0, 10⟩), ("D", ⟨0, 40⟩), ("E", ⟨0, 0⟩)]
    book := [("s", ⟨[(6, ⟨10, [("A", 2), ("B", 8)]⟩)], [(5, ⟨10, [("C", 2), ("D", 8)]⟩)]⟩)]
    stock := [("E", [("s", ⟨⟨0, 0⟩, ⟨1, 0⟩⟩)])] }

/-- Claim C8: `B` rests a NO-side buy of 10 @ 5 backed by 50 locked
cash, and has an all-zero stock record for `s`. -/
def exC8 : Exchange :=
  { inr := [("B", ⟨0, 50⟩)]
    book := [("s", ⟨[], [(5, ⟨10, [("B", 10)]⟩)]⟩)]
    stock := [("B", [("s", ⟨⟨0, 0⟩, ⟨0, 0⟩⟩)])] }

/-- Claim C9: a lone user with 100 free and 7 locked cash. -/
def exC9 : Exchange :=
  { inr := [("u", ⟨100, 7⟩)], book := [], stock := [] }

/-- Claim C10: a user with free cash and no book entry for any symbol. -/
def exC10 : Exchange :=
  { inr := [("u", ⟨100, 7⟩)], book := [], stock := [] }

/-! ## Association-list lemmas -/

theorem qmin_eq_min (a b : ℚ) : qmin a b = min a b := (min_def a b).symm

theorem alookup_aupd_self (l : List (α × β)) (k : α) (f : β → β) (d : β) :
    alookup (aupd l k f d) k = some (f ((alookup l k).getD d)) := by
  induction l with
  | nil => simp [alookup, aupd]
  | cons hd t ih =>
    obtain ⟨a, b⟩ := hd
    by_cases h : a = k
    · subst h; simp [alookup, aupd]
    · simp [alookup, aupd, h, ih]

theorem alookup_aupd_ne (l : List (α × β)) {k k' : α} (f : β → β) (d : β)
    (h : k' ≠ k) : alookup (aupd l k f d) k' = alookup l k' := by
  induction l with
  | nil => simp [alookup, aupd, Ne.symm h]
  | cons hd t ih =>
    obtain ⟨a, b⟩ := hd
    by_cases ha : a = k
    · subst ha
      simp [alookup, aupd, Ne.symm h]
    · simp [alookup, aupd, ha, ih]

theorem alookup_append (l₁ l₂ : List (α × β)) (k : α) :
    alookup (l₁ ++ l₂) k = (alookup l₁ k).or (alookup l₂ k) := by
  induction l₁ with
  | nil => simp [alookup]
  | cons hd t ih =>
    obtain ⟨a, b⟩ := hd
    by_cases ha : a = k <;> simp [alookup, ha, ih]

theorem alookup_eq_none (l : List (α × β)) (k : α) :
    alookup l k = none ↔ k ∉ l.map Prod.fst := by
  induction l with
  | nil => simp [alookup]
  | cons hd t ih =>
    obtain ⟨a, b⟩ := hd
    simp only [alookup, List.map_cons, List.mem_cons]
    by_cases ha : a = k
    · subst ha; simp
    · simp [ha, ih, Ne.symm ha]

theorem alookup_aensure_self (l : List (α × β)) (k : α) (d : β) :
    alookup (aensure l k d) k = some ((alookup l k).getD d) := by
  unfold aensure
  cases h : alookup l k with
  | none =>
    simp only [h, Option.isSome_none, Bool.false_eq_true, if_false, Option.getD_none]
    rw [alookup_append, h]
    simp [alookup]
  | some v =>
    simp [h]

theorem alookup_aensure_ne (l : List (α × β)) {k k' : α} (d : β) (h : k' ≠ k) :
    alookup (aensure l k d) k' = alookup l k' := by
  unfold aensure
  split
  · rfl
  · rw [alookup_append]
    simp [alookup, Ne.symm h]

/-! ## Observer frame lemmas -/

theorem cashOf_updCash_self (ex : Exchange) (u : String) (f : CashBal → CashBal) :
    cashOf (updCash ex u f) u = f (cashOf ex u) := by
  simp [cashOf, updCash, alookup_aupd_self]

theorem cashOf_updCash_ne (ex : Exchange) {u v : String} (f : CashBal → CashBal)
    (h : v ≠ u) : cashOf (updCash ex u f) v = cashOf ex v := by
  simp [cashOf, updCash, alookup_aupd_ne _ _ _ h]

theorem posOf_updStock_self (ex : Exchange) (u s : String) (f : StockBal → StockBal) :
    posOf (updStock ex u s f) u s = f (posOf ex u s) := by
  simp [posOf, stocksOf, updStock, alookup_aupd_self, alookup_aupd_self]

theorem posOf_updStock_ne_user (ex : Exchange) {u v : String} (s : String)
    (f : StockBal → StockBal) (h : v ≠ u) :
    posOf (updStock ex u s f) v t = posOf ex v t := by
  simp [posOf, stocksOf, updStock, alookup_aupd_ne _ _ _ h]

theorem posOf_updStock_ne_sym (ex : Exchange) (u : String) {s t : String}
    (f : StockBal → StockBal) (h : t ≠ s) :
    posOf (updStock ex u s f) v t = posOf ex v t := by
  by_cases hv : v = u
  · subst hv
    simp [posOf, stocksOf, updStock, alookup_aupd_self, alookup_aupd_ne _ _ _ h]
  · simp [posOf, stocksOf, updStock, alookup_aupd_ne _ _ _ hv]

theorem cashOf_updStock (ex : Exchange) (u s : String) (f : StockBal → StockBal) :
    cashOf (updStock ex u s f) v = cashOf ex v := rfl

theorem posOf_updCash (ex : Exchange) (u : String) (f : CashBal → CashBal) :
    posOf (updCash ex u f) v t = posOf ex v t := rfl

theorem book_updCash (ex : Exchange) (u : String) (f : CashBal → CashBal) :
    (updCash ex u f).book = ex.book := rfl

theorem book_updStock (ex : Exchange) (u s : String) (f : StockBal → StockBal) :
    (updStock ex u s f).book = ex.book := rfl

theorem posOf_ensureStockBalanceExists (ex : Exchange) (u s : String) :
    posOf (ensureStockBalanceExists ex u s) v t = posOf ex v t := by
  by_cases hv : v = u
  · subst hv
    by_cases ht : t = s
    · subst ht
      simp [posOf, stocksOf, ensureStockBalanceExists, alookup_aupd_self,
        alookup_aensure_self]
    · simp [posOf, stocksOf, ensureStockBalanceExists, alookup_aupd_self,
        alookup_aensure_ne _ _ ht]
  · simp [posOf, stocksOf, ensureStockBalanceExists, alookup_aupd_ne _ _ _ hv]

theorem cashOf_ensureStockBalanceExists (ex : Exchange) (u s : String) :
    cashOf (ensureStockBalanceExists ex u s) v = cashOf ex v := rfl

theorem book_ensureStockBalanceExists (ex : Exchange) (u s : String) :
    (ensureStockBalanceExists ex u s).book = ex.book := rfl

theorem cashOf_initialiseUserBalances (ex : Exchange) (u : String) :
    cashOf (initialiseUserBalances ex u) v = cashOf ex v := by
  by_cases hv : v = u
  · subst hv
    simp [cashOf, initialiseUserBalances, alookup_aensure_self]
  · simp [cashOf, initialiseUserBalances, alookup_aensure_ne _ _ hv]

theorem posOf_initialiseUserBalances (ex : Exchange) (u : String) :
    posOf (initialiseUserBalances ex u) v t = posOf ex v t := by
  by_cases hv : v = u
  · subst hv
    simp [posOf, stocksOf, initialiseUserBalances, alookup_aensure_self]
  · simp [posOf, stocksOf, initialiseUserBalances, alookup_aensure_ne _ _ hv]

theorem book_initialiseUserBalances (ex : Exchange) (u : String) :
    (initialiseUserBalances ex u).book = ex.book := rfl

/-! ## Total-cash lemmas -/

theorem totalCash_aupd (l : List (String × CashBal)) (u : String)
    (f : CashBal → CashBal) :
    ((aupd l u f ⟨0, 0⟩).map (fun e => cbTotal e.2)).sum =
      ((l.map (fun e => cbTotal e.2)).sum) +
        cbTotal (f ((alookup l u).getD ⟨0, 0⟩)) - cbTotal ((alookup l u).getD ⟨0, 0⟩) := by
  induction l with
  | nil => simp [aupd, alookup, cbTotal]
  | cons hd t ih =>
    obtain ⟨a, b⟩ := hd
    by_cases ha : a = u
    · subst ha; simp [aupd, alookup]; ring
    · simp [aupd, alookup, ha, ih]; ring

theorem totalCash_updCash (ex : Exchange) (u : String) (f : CashBal → CashBal) :
    totalCash (updCash ex u f) =
      totalCash ex + cbTotal (f (cashOf ex u)) - cbTotal (cashOf ex u) := by
  simp [totalCash, updCash, cashOf, totalCash_aupd]

theorem totalCash_initialiseUserBalances (ex : Exchange) (u : String) :
    totalCash (initialiseUserBalances ex u) = totalCash ex := by
  unfold totalCash initialiseUserBalances aensure
  split
  · rfl
  · simp [cbTotal]

theorem totalCash_updStock (ex : Exchange) (u s : String) (f : StockBal → StockBal) :
    totalCash (updStock ex u s f) = totalCash ex := rfl

theorem totalCash_ensureStockBalanceExists (ex : Exchange) (u s : String) :
    totalCash (ensureStockBalanceExists ex u s) = totalCash ex := rfl

/-! ## Effects of one settlement (`updateBalancesAfterTrade`) -/

theorem trade_cash_buyer (ex : Exchange) {b sl : String} (s : String) (pr q : ℚ)
    (h : b ≠ sl) :
    cashOf (updateBalancesAfterTrade ex b sl s pr q) b =
      ⟨(cashOf ex b).balance, (cashOf ex b).locked - q * pr⟩ := by
  unfold updateBalancesAfterTrade
  rw [cashOf_updStock, cashOf_updStock, cashOf_ensureStockBalanceExists,
    cashOf_ensureStockBalanceExists, cashOf_updCash_ne _ _ h, cashOf_updCash_self]

theorem trade_cash_seller (ex : Exchange) {b sl : String} (s : String) (pr q : ℚ) :
    cashOf (updateBalancesAfterTrade ex b sl s pr q) sl =
      ⟨(cashOf (updCash ex b (fun c => { c with locked := c.locked - q * pr })) sl).balance
          + q * pr,
        (cashOf (updCash ex b (fun c => { c with locked := c.locked - q * pr })) sl).locked⟩ := by
  unfold updateBalancesAfterTrade
  rw [cashOf_updStock, cashOf_updStock, cashOf_ensureStockBalanceExists,
    cashOf_ensureStockBalanceExists, cashOf_updCash_self]

theorem trade_cash_seller_ne (ex : Exchange) {b sl : String} (s : String) (pr q : ℚ)
    (h : sl ≠ b) :
    cashOf (updateBalancesAfterTrade ex b sl s pr q) sl =
      ⟨(cashOf ex sl).balance + q * pr, (cashOf ex sl).locked⟩ := by
  rw [trade_cash_seller, cashOf_updCash_ne _ _ h]

theorem trade_cash_other (ex : Exchange) {b sl v : String} (s : String) (pr q : ℚ)
    (hb : v ≠ b) (hs : v ≠ sl) :
    cashOf (updateBalancesAfterTrade ex b sl s pr q) v = cashOf ex v := by
  unfold updateBalancesAfterTrade
  rw [cashOf_updStock, cashOf_updStock, cashOf_ensureStockBalanceExists,
    cashOf_ensureStockBalanceExists, cashOf_updCash_ne _ _ hs, cashOf_updCash_ne _ _ hb]

theorem trade_pos_buyer (ex : Exchange) {b sl : String} (s : String) (pr q : ℚ)
    (h : b ≠ sl) :
    posOf (updateBalancesAfterTrade ex b sl s pr q) b s =
      ⟨⟨(posOf ex b s).yes.quantity + q, (posOf ex b s).yes.locked⟩, (posOf ex b s).no⟩ := by
  unfold updateBalancesAfterTrade
  rw [posOf_updStock_ne_user _ _ _ h, posOf_updStock_self,
    posOf_ensureStockBalanceExists, posOf_ensureStockBalanceExists,
    posOf_updCash, posOf_updCash]

theorem trade_pos_seller (ex : Exchange) {b sl : String} (s : String) (pr q : ℚ)
    (h : sl ≠ b) :
    posOf (updateBalancesAfterTrade ex b sl s pr q) sl s =
      ⟨⟨(posOf ex sl s).yes.quantity, (posOf ex sl s).yes.locked - q⟩, (posOf ex sl s).no⟩ := by
  unfold updateBalancesAfterTrade
  rw [posOf_updStock_self, posOf_updStock_ne_user _ _ _ h,
    posOf_ensureStockBalanceExists, posOf_ensureStockBalanceExists,
    posOf_updCash, posOf_updCash]

theorem trade_pos_other_user (ex : Exchange) {b sl v : String} (s t : String) (pr q : ℚ)
    (hb : v ≠ b) (hs : v ≠ sl) :
    posOf (updateBalancesAfterTrade ex b sl s pr q) v t = posOf ex v t := by
  unfold updateBalancesAfterTrade
  rw [posOf_updStock_ne_user _ _ _ hs, posOf_updStock_ne_user _ _ _ hb,
    posOf_ensureStockBalanceExists, posOf_ensureStockBalanceExists,
    posOf_updCash, posOf_updCash]

theorem trade_pos_other_sym (ex : Exchange) (b sl v : String) {s t : String} (pr q : ℚ)
    (ht : t ≠ s) :
    posOf (updateBalancesAfterTrade ex b sl s pr q) v t = posOf ex v t := by
  unfold updateBalancesAfterTrade
  rw [posOf_updStock_ne_sym _ _ _ ht, posOf_updStock_ne_sym _ _ _ ht,
    posOf_ensureStockBalanceExists, posOf_ensureStockBalanceExists,
    posOf_updCash, posOf_updCash]

theorem trade_book (ex : Exchange) (b sl : String) (s : String) (pr q : ℚ) :
    (updateBalancesAfterTrade ex b sl s pr q).book = ex.book := rfl

theorem totalCash_trade (ex : Exchange) (b sl : String) (s : String) (pr q : ℚ) :
    totalCash (updateBalancesAfterTrade ex b sl s pr q) = totalCash ex := by
  unfold updateBalancesAfterTrade
  rw [totalCash_updStock, totalCash_updStock, totalCash_ensureStockBalanceExists,
    totalCash_ensureStockBalanceExists, totalCash_updCash, totalCash_updCash]
  simp only [cbTotal]
  ring

/-! ## The settlement log determines the ledgers -/

theorem applyTrades_nil (s : String) (ex : Exchange) : applyTrades s ex [] = ex := rfl

theorem applyTrades_cons (s : String) (ex : Exchange) (t : Trade) (log : List Trade) :
    applyTrades s ex (t :: log) =
      applyTrades s (updateBalancesAfterTrade ex t.buyer t.seller s t.price t.qty) log := rfl

theorem applyTrades_append (s : String) (ex : Exchange) (l₁ l₂ : List Trade) :
    applyTrades s ex (l₁ ++ l₂) = applyTrades s (applyTrades s ex l₁) l₂ := by
  simp [applyTrades, List.foldl_append]

theorem applyTrades_book (s : String) (ex : Exchange) (log : List Trade) :
    (applyTrades s ex log).book = ex.book := by
  induction log generalizing ex with
  | nil => rfl
  | cons t l ih => rw [applyTrades_cons, ih, trade_book]

theorem trade_congr {ex ey : Exchange} (b sl : String) (s : String) (pr q : ℚ)
    (hinr : ex.inr = ey.inr) (hstk : ex.stock = ey.stock) :
    (updateBalancesAfterTrade ex b sl s pr q).inr =
        (updateBalancesAfterTrade ey b sl s pr q).inr ∧
      (updateBalancesAfterTrade ex b sl s pr q).stock =
        (updateBalancesAfterTrade ey b sl s pr q).stock := by
  unfold updateBalancesAfterTrade updCash updStock ensureStockBalanceExists
  dsimp only
  rw [hinr, hstk]
  exact ⟨rfl, rfl⟩

theorem applyTrades_congr {ex ey : Exchange} (s : String) (log : List Trade)
    (hinr : ex.inr = ey.inr) (hstk : ex.stock = ey.stock) :
    (applyTrades s ex log).inr = (applyTrades s ey log).inr ∧
      (applyTrades s ex log).stock = (applyTrades s ey log).stock := by
  induction log generalizing ex ey with
  | nil => exact ⟨hinr, hstk⟩
  | cons t l ih =>
    rw [applyTrades_cons, applyTrades_cons]
    obtain ⟨h1, h2⟩ := trade_congr t.buyer t.seller s t.price t.qty hinr hstk
    exact ih h1 h2

/-! ## `executeTrade` replays its own log -/

theorem tradeInner_spec (s : String) (pr : ℚ) (bId : String) (stale : ℚ)
    (snap : List (String × ℚ)) :
    ∀ (ex : Exchange) (buyers sellers : List (String × ℚ)) (qty : ℚ),
      (tradeInner s pr bId stale snap ex buyers sellers qty).ex =
          applyTrades s ex (tradeInner s pr bId stale snap ex buyers sellers qty).log ∧
        ∀ t ∈ (tradeInner s pr bId stale snap ex buyers sellers qty).log,
          t.price = pr ∧ t.buyer = bId := by
  induction snap with
  | nil =>
    intro ex buyers sellers qty
    simp [tradeInner, applyTrades]
  | cons hd rest ih =>
    intro ex buyers sellers qty
    obtain ⟨sellerId, sellQty⟩ := hd
    simp only [tradeInner]
    cases hb : alookup buyers bId with
    | none =>
      simp [applyTrades_cons, applyTrades_nil]
    | some bq =>
      simp only []
      split
      · simp [applyTrades_cons, applyTrades_nil]
      · obtain ⟨ihex, ihlog⟩ := ih (updateBalancesAfterTrade ex bId sellerId s pr
          (qmin (qmin stale sellQty) qty))
          (if bq - qmin (qmin stale sellQty) qty = 0 then
            aerase (aset buyers bId (bq - qmin (qmin stale sellQty) qty)) bId
          else aset buyers bId (bq - qmin (qmin stale sellQty) qty))
          (if sellQty - qmin (qmin stale sellQty) qty = 0 then
            aerase (aset sellers sellerId (sellQty - qmin (qmin stale sellQty) qty)) sellerId
          else aset sellers sellerId (sellQty - qmin (qmin stale sellQty) qty))
          (qty - qmin (qmin stale sellQty) qty)
        constructor
        · rw [applyTrades_cons]
          exact ihex
        · intro t ht
          rcases List.mem_cons.mp ht with h | h
          · subst h; exact ⟨rfl, rfl⟩
          · exact ihlog t h

theorem tradeOuter_spec (s : String) (pr : ℚ) (snap : List (String × ℚ)) :
    ∀ (ex : Exchange) (buyers sellers : List (String × ℚ)) (qty : ℚ),
      (tradeOuter s pr snap ex buyers sellers qty).ex =
          applyTrades s ex (tradeOuter s pr snap ex buyers sellers qty).log ∧
        ∀ t ∈ (tradeOuter s pr snap ex buyers sellers qty).log,
          t.price = pr ∧ t.buyer ∈ snap.map Prod.fst := by
  induction snap with
  | nil =>
    intro ex buyers sellers qty
    simp [tradeOuter, applyTrades]
  | cons hd rest ih =>
    intro ex buyers sellers qty
    obtain ⟨buyerId, stale⟩ := hd
    obtain ⟨h1ex, h1log⟩ := tradeInner_spec s pr buyerId stale sellers ex buyers sellers qty
    simp only [tradeOuter]
    cases hst : (tradeInner s pr buyerId stale sellers ex buyers sellers qty).status with
    | normal =>
      simp only []
      set r1 := tradeInner s pr buyerId stale sellers ex buyers sellers qty with hr1
      obtain ⟨h2ex, h2log⟩ := ih r1.ex r1.buyers r1.sellers r1.qty
      constructor
      · rw [applyTrades_append, ← h1ex]
        exact h2ex
      · intro t ht
        rcases List.mem_append.mp ht with h | h
        · exact ⟨(h1log t h).1, by simp [(h1log t h).2]⟩
        · exact ⟨(h2log t h).1, List.mem_cons_of_mem _ (h2log t h).2⟩
    | returned =>
      simp only []
      refine ⟨h1ex, fun t ht => ⟨(h1log t ht).1, by simp [(h1log t ht).2]⟩⟩
    | crashed =>
      simp only []
      refine ⟨h1ex, fun t ht => ⟨(h1log t ht).1, by simp [(h1log t ht).2]⟩⟩

theorem executeTrade_spec (ex : Exchange) (s : String) (pr qty : ℚ)
    (buyers sellers : List (String × ℚ)) :
    (executeTrade ex s pr qty buyers sellers).ex =
        applyTrades s ex (executeTrade ex s pr qty buyers sellers).log ∧
      ∀ t ∈ (executeTrade ex s pr qty buyers sellers).log,
        t.price = pr ∧ t.buyer ∈ buyers.map Prod.fst :=
  tradeOuter_spec s pr buyers ex buyers sellers qty

theorem setLevelOrders_inr (ex : Exchange) (s : String) (S : Outcome) (p : ℚ)
    (od : List (String × ℚ)) : (setLevelOrders ex s S p od).inr = ex.inr := rfl

theorem setLevelOrders_stock (ex : Exchange) (s : String) (S : Outcome) (p : ℚ)
    (od : List (String × ℚ)) : (setLevelOrders ex s S p od).stock = ex.stock := rfl

theorem setLevelTotal_inr (ex : Exchange) (s : String) (S : Outcome) (p t : ℚ) :
    (setLevelTotal ex s S p t).inr = ex.inr := rfl

theorem setLevelTotal_stock (ex : Exchange) (s : String) (S : Outcome) (p t : ℚ) :
    (setLevelTotal ex s S p t).stock = ex.stock := rfl

theorem eraseLevel_inr (ex : Exchange) (s : String) (S : Outcome) (p : ℚ) :
    (eraseLevel ex s S p).inr = ex.inr := rfl

theorem eraseLevel_stock (ex : Exchange) (s : String) (S : Outcome) (p : ℚ) :
    (eraseLevel ex s S p).stock = ex.stock := rfl

theorem sorted_map_const {l : List Trade} {c : ℚ}
    (h : ∀ t ∈ l, Trade.price t = c) :
    List.Sorted (· ≤ ·) (l.map Trade.price) := by
  induction l with
  | nil => simp
  | cons a t ih =>
    simp only [List.map_cons, List.sorted_cons]
    refine ⟨?_, ih fun x hx => h x (List.mem_cons_of_mem _ hx)⟩
    intro b hb
    obtain ⟨x, hx, rfl⟩ := List.mem_map.mp hb
    rw [h a (List.mem_cons_self a t), h x (List.mem_cons_of_mem _ hx)]

/-! ## The taker pass replays its log at ascending resting prices -/

theorem takerLoop_spec (s : String) (S : Outcome) (p : ℚ) (u : String)
    (prices : List ℚ) :
    ∀ (ex : Exchange) (rem spent : ℚ),
      List.Sorted (· ≤ ·) prices →
      (takerLoop s S p u prices ex rem spent).crashed = false →
      ((takerLoop s S p u prices ex rem spent).ex.inr =
          (applyTrades s ex (takerLoop s S p u prices ex rem spent).log).inr ∧
        (takerLoop s S p u prices ex rem spent).ex.stock =
          (applyTrades s ex (takerLoop s S p u prices ex rem spent).log).stock) ∧
      List.Sorted (· ≤ ·) ((takerLoop s S p u prices ex rem spent).log.map Trade.price) ∧
      ∀ t ∈ (takerLoop s S p u prices ex rem spent).log,
        t.buyer = u ∧ t.price ≤ p ∧ t.price ∈ prices := by
  induction prices with
  | nil =>
    intro ex rem spent hsort hcr
    simp [takerLoop, applyTrades]
  | cons price rest ih =>
    intro ex rem spent hsort hcr
    rw [List.sorted_cons] at hsort
    obtain ⟨hhead, htail⟩ := hsort
    simp only [takerLoop] at hcr ⊢
    by_cases hp : p < price
    · simp only [hp, if_true] at hcr ⊢
      simp [applyTrades]
    · simp only [hp, if_false] at hcr ⊢
      obtain ⟨hex1, hlog1⟩ := executeTrade_spec ex s price
        (qmin rem ((alookup ((bookOf ex s).side S.flip) price).getD ⟨0, []⟩).total)
        [(u, qmin rem ((alookup ((bookOf ex s).side S.flip) price).getD ⟨0, []⟩).total)]
        ((alookup ((bookOf ex s).side S.flip) price).getD ⟨0, []⟩).orders
      set r1 := executeTrade ex s price
        (qmin rem ((alookup ((bookOf ex s).side S.flip) price).getD ⟨0, []⟩).total)
        [(u, qmin rem ((alookup ((bookOf ex s).side S.flip) price).getD ⟨0, []⟩).total)]
        ((alookup ((bookOf ex s).side S.flip) price).getD ⟨0, []⟩).orders with hr1
      have hbuyer : ∀ t ∈ r1.log, t.price = price ∧ t.buyer = u := by
        intro t ht
        obtain ⟨h1, h2⟩ := hlog1 t ht
        refine ⟨h1, ?_⟩
        simpa using h2
      cases hst : r1.status with
      | crashed => simp [hst] at hcr
      | normal =>
        simp only [hst] at hcr ⊢
        by_cases hz : rem -
            (qmin rem ((alookup ((bookOf ex s).side S.flip) price).getD ⟨0, []⟩).total) = 0
        · rw [if_pos hz] at hcr ⊢
          refine ⟨⟨?_, ?_⟩, ?_, ?_⟩
          · rw [setLevelOrders_inr, hex1]
          · rw [setLevelOrders_stock, hex1]
          · exact sorted_map_const fun t ht => (hbuyer t ht).1
          · intro t ht
            exact ⟨(hbuyer t ht).2, by simpa [(hbuyer t ht).1] using not_lt.mp hp,
              by simp [(hbuyer t ht).1]⟩
        · rw [if_neg hz] at hcr ⊢
          obtain ⟨⟨ih_inr, ih_stk⟩, ih_sorted, ih_mem⟩ :=
            ih (setLevelOrders r1.ex s S.flip price r1.sellers)
              (rem - (qmin rem ((alookup ((bookOf ex s).side S.flip) price).getD ⟨0, []⟩).total))
              (spent + (qmin rem ((alookup ((bookOf ex s).side S.flip) price).getD ⟨0, []⟩).total)
                * price) htail hcr
          refine ⟨⟨?_, ?_⟩, ?_, ?_⟩
          · rw [applyTrades_append]
            rw [ih_inr]
            exact (applyTrades_congr s _ (by rw [setLevelOrders_inr, hex1])
              (by rw [setLevelOrders_stock, hex1])).1
          · rw [applyTrades_append]
            rw [ih_stk]
            exact (applyTrades_congr s _ (by rw [setLevelOrders_inr, hex1])
              (by rw [setLevelOrders_stock, hex1])).2
          · rw [List.map_append]
            rw [List.Sorted, List.pairwise_append]
            refine ⟨sorted_map_const fun t ht => (hbuyer t ht).1, ih_sorted, ?_⟩
            intro a ha b hb
            obtain ⟨x, hx, rfl⟩ := List.mem_map.mp ha
            obtain ⟨y, hy, rfl⟩ := List.mem_map.mp hb
            rw [(hbuyer x hx).1]
            exact hhead _ (ih_mem y hy).2.2
          · intro t ht
            rcases List.mem_append.mp ht with h | h
            · exact ⟨(hbuyer t h).2, by simpa [(hbuyer t h).1] using not_lt.mp hp,
                by simp [(hbuyer t h).1]⟩
            · obtain ⟨hb, hle, hm⟩ := ih_mem t h
              exact ⟨hb, hle, List.mem_cons_of_mem _ hm⟩
      | returned =>
        simp only [hst] at hcr ⊢
        by_cases hz : rem -
            (qmin rem ((alookup ((bookOf ex s).side S.flip) price).getD ⟨0, []⟩).total) = 0
        · rw [if_pos hz] at hcr ⊢
          refine ⟨⟨?_, ?_⟩, ?_, ?_⟩
          · rw [setLevelOrders_inr, hex1]
          · rw [setLevelOrders_stock, hex1]
          · exact sorted_map_const fun t ht => (hbuyer t ht).1
          · intro t ht
            exact ⟨(hbuyer t ht).2, by simpa [(hbuyer t ht).1] using not_lt.mp hp,
              by simp [(hbuyer t ht).1]⟩
        · rw [if_neg hz] at hcr ⊢
          obtain ⟨⟨ih_inr, ih_stk⟩, ih_sorted, ih_mem⟩ :=
            ih (setLevelOrders r1.ex s S.flip price r1.sellers)
              (rem - (qmin rem ((alookup ((bookOf ex s).side S.flip) price).getD ⟨0, []⟩).total))
              (spent + (qmin rem ((alookup ((bookOf ex s).side S.flip) price).getD ⟨0, []⟩).total)
                * price) htail hcr
          refine ⟨⟨?_, ?_⟩, ?_, ?_⟩
          · rw [applyTrades_append]
            rw [ih_inr]
            exact (applyTrades_congr s _ (by rw [setLevelOrders_inr, hex1])
              (by rw [setLevelOrders_stock, hex1])).1
          · rw [applyTrades_append]
            rw [ih_stk]
            exact (applyTrades_congr s _ (by rw [setLevelOrders_inr, hex1])
              (by rw [setLevelOrders_stock, hex1])).2
          · rw [List.map_append]
            rw [List.Sorted, List.pairwise_append]
            refine ⟨sorted_map_const fun t ht => (hbuyer t ht).1, ih_sorted, ?_⟩
            intro a ha b hb
            obtain ⟨x, hx, rfl⟩ := List.mem_map.mp ha
            obtain ⟨y, hy, rfl⟩ := List.mem_map.mp hb
            rw [(hbuyer x hx).1]
            exact hhead _ (ih_mem y hy).2.2
          · intro t ht
            rcases List.mem_append.mp ht with h | h
            · exact ⟨(hbuyer t h).2, by simpa [(hbuyer t h).1] using not_lt.mp hp,
                by simp [(hbuyer t h).1]⟩
            · obtain ⟨hb, hle, hm⟩ := ih_mem t h
              exact ⟨hb, hle, List.mem_cons_of_mem _ hm⟩

/-! ## Claim C1 -/

/-- C1: the claim says every buy/sell/cancel leaves the sum over all
users of `cash_free + cash_locked` unchanged, and that a successful buy
reduces the taker's own sum by exactly the trade notionals plus the
resting reservation. The code contradicts it: `buyStock` never locks the
reservation, yet each trade debits the taker's *locked* cash and the
handler additionally debits the taker's *free* cash by the full
`totalSpent`. Starting from the lock-consistent state `exC1`
(system cash 100), `B`'s fully matched buy of 10 @ 5 leaves system cash
50: the 50 notional was taken from `B` twice while maker `A` received it
once, and `B`'s own sum fell from 100 to 0 instead of 50. -/
theorem claim1_buy_double_debit :
    (buyStock exC1 "B" "s" 10 5 Outcome.yes).2 = Res.fullMatch ∧
    totalCash exC1 = 100 ∧
    totalCash (buyStock exC1 "B" "s" 10 5 Outcome.yes).1 = 50 ∧
    cbTotal (cashOf exC1 "B") = 100 ∧
    cbTotal (cashOf (buyStock exC1 "B" "s" 10 5 Outcome.yes).1 "B") = 0 ∧
    cashOf (buyStock exC1 "B" "s" 10 5 Outcome.yes).1 "B" = ⟨50, -50⟩ := by
  decide

/-! ## Claim C2 -/

/-- C2 counterexample: the claim says a taker buy of outcome `S` credits
the taker's free inventory *of outcome `S`* and reduces the maker's
locked inventory *of the complement outcome* by the matched quantity.
On `exC2` the taker buys YES, so the complement is NO and the maker
`A`'s NO `qty_locked` (10) should fall to 0 — but the code hardcodes the
`yes` fields of both parties in `updateBalancesAfterTrade`: `A`'s NO
locked stays 10 and its YES locked is driven to −10. -/
theorem claim2_counterexample :
    (buyStock exC2 "B" "s" 10 5 Outcome.yes).2 = Res.fullMatch ∧
    (posOf exC2 "A" "s").no.locked = 10 ∧
    (posOf (buyStock exC2 "B" "s" 10 5 Outcome.yes).1 "A" "s").no.locked = 10 ∧
    (posOf (buyStock exC2 "B" "s" 10 5 Outcome.yes).1 "A" "s").yes.locked = -10 := by
  decide

/-- C2 (amended): for every non-crashing taker pass, the scan visits
resting levels of the complement outcome's book in ascending price order
and never above the limit `p` — every settlement in the log is made by
taker `u` at a resting price `≤ p`, and the logged prices are ascending;
the pass's effect on both ledgers is exactly the replay of that log; and
each settlement of `k` units at maker price `p'` debits `k*p'` from the
taker's locked cash, credits `k` to the taker's free *YES* inventory
(regardless of `S`), reduces the maker's locked *YES* inventory by `k`
(not the complement outcome's), and credits `k*p'` to the maker's free
cash. -/
theorem claim2_taker_pass (ex : Exchange) (s : String) (S : Outcome) (p q : ℚ)
    (u : String) (hcr : (matchBuyOrder ex s S p q u).crashed = false) :
    ((matchBuyOrder ex s S p q u).ex.inr =
        (applyTrades s ex (matchBuyOrder ex s S p q u).log).inr ∧
      (matchBuyOrder ex s S p q u).ex.stock =
        (applyTrades s ex (matchBuyOrder ex s S p q u).log).stock) ∧
    List.Sorted (· ≤ ·) ((matchBuyOrder ex s S p q u).log.map Trade.price) ∧
    (∀ t ∈ (matchBuyOrder ex s S p q u).log,
      t.buyer = u ∧ t.price ≤ p ∧
        t.price ∈ ((bookOf ex s).side S.flip).map Prod.fst) ∧
    ∀ (E : Exchange) (b sl : String) (pr k : ℚ), b ≠ sl →
      cashOf (updateBalancesAfterTrade E b sl s pr k) b =
          ⟨(cashOf E b).balance, (cashOf E b).locked - k * pr⟩ ∧
        cashOf (updateBalancesAfterTrade E b sl s pr k) sl =
          ⟨(cashOf E sl).balance + k * pr, (cashOf E sl).locked⟩ ∧
        posOf (updateBalancesAfterTrade E b sl s pr k) b s =
          ⟨⟨(posOf E b s).yes.quantity + k, (posOf E b s).yes.locked⟩, (posOf E b s).no⟩ ∧
        posOf (updateBalancesAfterTrade E b sl s pr k) sl s =
          ⟨⟨(posOf E sl s).yes.quantity, (posOf E sl s).yes.locked - k⟩, (posOf E sl s).no⟩ := by
  simp only [matchBuyOrder] at hcr ⊢
  obtain ⟨hmain, hsorted, hmem⟩ :=
    takerLoop_spec s S p u
      ((((bookOf ex s).side S.flip).map Prod.fst).insertionSort (· ≤ ·)) ex q 0
      (List.sorted_insertionSort _ _) hcr
  refine ⟨hmain, hsorted, ?_, ?_⟩
  · intro t ht
    obtain ⟨hb, hle, hm⟩ := hmem t ht
    exact ⟨hb, hle, (List.perm_insertionSort _ _).subset hm⟩
  · intro E b sl pr k h
    exact ⟨trade_cash_buyer E s pr k h, trade_cash_seller_ne E s pr k (Ne.symm h),
      trade_pos_buyer E s pr k h, trade_pos_seller E s pr k (Ne.symm h)⟩

/-- C2 witness: the amended taker-pass theorem applied to the concrete
state `exC2` — the pass's ledger effect is the replay of its log. -/
theorem claim2_witness :
    (matchBuyOrder exC2 "s" Outcome.yes 5 10 "B").ex.inr =
      (applyTrades "s" exC2 (matchBuyOrder exC2 "s" Outcome.yes 5 10 "B").log).inr :=
  (claim2_taker_pass exC2 "s" Outcome.yes 5 10 "B" (by decide)).1.1

/-! ## Claim C4 -/

/-- C4 counterexample: the claim says a book-sweep settlement of `k'`
units between YES buyer `by` (resting at `py`) and NO buyer `bn`
(resting at `pn`) debits `k'*py` from `by.cash_locked`, `k'*pn` from
`bn.cash_locked`, credits `k'` to `by`'s free YES and `bn`'s free NO
inventory, and touches nobody's `qty_locked`. On `exC4` (YES 50 @ 6
against NO 50 @ 5, midpoint 5.5) the code instead debits `50*5.5 = 275`
from `u1`'s locked cash (leaving 25, not 0), credits 275 to `u2`'s
*free* cash while `u2`'s locked cash stays 250, never credits `u2`'s
free NO inventory, and drives `u2`'s YES `qty_locked` to −50. -/
theorem claim4_counterexample :
    (matchOrders exC4 "s").crashed = false ∧
    (matchOrders exC4 "s").log = [⟨"u1", "u2", 11/2, 50⟩] ∧
    cashOf (matchOrders exC4 "s").ex "u1" = ⟨0, 25⟩ ∧
    cashOf (matchOrders exC4 "s").ex "u2" = ⟨275, 250⟩ ∧
    (posOf (matchOrders exC4 "s").ex "u2" "s").no.quantity = 0 ∧
    (posOf (matchOrders exC4 "s").ex "u2" "s").yes.locked = -50 := by
  decide

/-- C4 (amended): each book-sweep settlement of `k` units between YES
maker `b` and NO maker `nb` executes entirely through
`updateBalancesAfterTrade` at the midpoint trade price `m`: it debits
`k*m` (not `k*py`) from `b`'s locked cash, credits `k*m` to `nb`'s
*free* cash (its locked cash is untouched), credits `k` to `b`'s free
YES inventory, debits `k` from `nb`'s locked *YES* inventory (its free
NO inventory is untouched), leaves the book alone, and changes no other
user's cash or positions and no other symbol's positions. -/
theorem claim4_settlement (ex : Exchange) (b nb : String) (s : String) (m k : ℚ)
    (h : b ≠ nb) :
    cashOf (updateBalancesAfterTrade ex b nb s m k) b =
        ⟨(cashOf ex b).balance, (cashOf ex b).locked - k * m⟩ ∧
      cashOf (updateBalancesAfterTrade ex b nb s m k) nb =
        ⟨(cashOf ex nb).balance + k * m, (cashOf ex nb).locked⟩ ∧
      posOf (updateBalancesAfterTrade ex b nb s m k) b s =
        ⟨⟨(posOf ex b s).yes.quantity + k, (posOf ex b s).yes.locked⟩, (posOf ex b s).no⟩ ∧
      posOf (updateBalancesAfterTrade ex b nb s m k) nb s =
        ⟨⟨(posOf ex nb s).yes.quantity, (posOf ex nb s).yes.locked - k⟩, (posOf ex nb s).no⟩ ∧
      (updateBalancesAfterTrade ex b nb s m k).book = ex.book ∧
      (∀ v, v ≠ b → v ≠ nb → cashOf (updateBalancesAfterTrade ex b nb s m k) v = cashOf ex v) ∧
      (∀ v t, t ≠ s → posOf (updateBalancesAfterTrade ex b nb s m k) v t = posOf ex v t) ∧
      ∀ v t, v ≠ b → v ≠ nb →
        posOf (updateBalancesAfterTrade ex b nb s m k) v t = posOf ex v t := by
  refine ⟨trade_cash_buyer ex s m k h, trade_cash_seller_ne ex s m k (Ne.symm h),
    trade_pos_buyer ex s m k h, trade_pos_seller ex s m k (Ne.symm h), rfl,
    fun v hb hs => trade_cash_other ex s m k hb hs,
    fun v t ht => trade_pos_other_sym ex b nb v m k ht,
    fun v t hb hs => trade_pos_other_user ex s t m k hb hs⟩

/-- C4 witness: the amended settlement theorem applied at the concrete
crossing of `exC4` — the NO maker's cash moves to its *free* side. -/
theorem claim4_witness :
    cashOf (updateBalancesAfterTrade exC4 "u1" "u2" "s" (11/2) 50) "u2" =
      ⟨(cashOf exC4 "u2").balance + 50 * (11/2), (cashOf exC4 "u2").locked⟩ :=
  (claim4_settlement exC4 "u1" "u2" "s" (11/2) 50 (by decide)).2.1

/-! ## Claim C5 -/

/-- C5: the claim says that after every top-level operation each present
price level satisfies `total = Σ orders` and zero-total levels are
absent. The taker pass (`matchBuyOrder`) violates it: `executeTrade`
reduces the per-maker entries through the live level reference but the
level `total` is never reduced. After `B` buys 4 from the 10-lot level
of `exC5`, the NO level at 5 still reports `total = 10` while its maker
map sums to 6. -/
theorem claim5_level_total_stale :
    (buyStock exC5 "B" "s" 4 5 Outcome.yes).2 = Res.fullMatch ∧
    ((alookup (bookOf (buyStock exC5 "B" "s" 4 5 Outcome.yes).1 "s").no 5).getD
        ⟨0, []⟩).total = 10 ∧
    (((alookup (bookOf (buyStock exC5 "B" "s" 4 5 Outcome.yes).1 "s").no 5).getD
        ⟨0, []⟩).orders.map Prod.snd).sum = 6 ∧
    ((alookup (bookOf (buyStock exC5 "B" "s" 4 5 Outcome.yes).1 "s").no 5).getD
        ⟨0, []⟩).total ≠
      (((alookup (bookOf (buyStock exC5 "B" "s" 4 5 Outcome.yes).1 "s").no 5).getD
          ⟨0, []⟩).orders.map Prod.snd).sum := by
  decide

/-! ## Claim C7 -/

/-- C7: the claim says a failing write leaves all ledgers and the book
unchanged. The code contradicts it on a reachable state: on `exC7`,
`E`'s sell triggers the book-sweep; its second pairwise step reads the
already-deleted buyer entry `A` (`undefined.minus` in the source — a
`TypeError` caught by the handler, which answers 400), after the first
two settlements have already been applied. The failing sell returns the
runtime error yet `A`'s locked cash has moved from 12 to −10, `C` and
`D` each gained 11 free cash, and `E`'s inventory was moved to locked. -/
theorem claim7_failing_sell_mutates :
    (placeSellOrder exC7 "E" "s" 1 7 Outcome.no).2 = Res.failed Err.runtimeError ∧
    cashOf exC7 "A" = ⟨0, 12⟩ ∧
    cashOf (placeSellOrder exC7 "E" "s" 1 7 Outcome.no).1 "A" = ⟨0, -10⟩ ∧
    cashOf (placeSellOrder exC7 "E" "s" 1 7 Outcome.no).1 "C" = ⟨11, 10⟩ ∧
    (posOf (placeSellOrder exC7 "E" "s" 1 7 Outcome.no).1 "E" "s").no = ⟨0, 1⟩ := by
  decide

/-! ## Claim C8 -/

theorem updateOrderbookAfterCancel_inr (ex : Exchange) (s : String) (S : Outcome)
    (p qty : ℚ) (u : String) :
    (updateOrderbookAfterCancel ex s S p qty u).inr = ex.inr := rfl

theorem updateOrderbookAfterCancel_stock (ex : Exchange) (s : String) (S : Outcome)
    (p qty : ℚ) (u : String) :
    (updateOrderbookAfterCancel ex s S p qty u).stock = ex.stock := rfl

/-- C8 counterexample: the claim says the refund side follows the
canceled order's *side* — a resting buy unlocks cash. `B`'s order on
`exC8` is a resting NO *buy* backed by 50 locked cash, so canceling it
should move 50 from locked to free cash and leave inventory alone. The
code branches on the *outcome* instead: `B`'s cash stays `(0, 50)` and
its NO inventory record is driven to `(quantity 10, locked −10)`. -/
theorem claim8_counterexample :
    (cancelOrder exC8 "B" "s" 10 5 Outcome.no).2 = Res.canceled ∧
    cashOf (cancelOrder exC8 "B" "s" 10 5 Outcome.no).1 "B" = ⟨0, 50⟩ ∧
    (posOf (cancelOrder exC8 "B" "s" 10 5 Outcome.no).1 "B" "s").no = ⟨10, -10⟩ := by
  decide

/-- C8 (amended): `cancel(u, s, S, p, q)` fails with `ORDER_NOT_FOUND`
when `u` has no resting entry at `(s, S, p)` and the state is unchanged;
otherwise it cancels `q' = min(q, q_owned)` and refunds according to the
*outcome* `S`, not the canceled order's side: for `S = yes`, `q'*p`
moves from `u`'s locked cash to free cash and no position changes; for
`S = no` (provided `u`'s per-symbol stock record exists — a missing one
throws), `q'` moves from `u`'s locked NO inventory to free NO inventory
and no cash changes. Other users' cash and positions are untouched. -/
theorem claim8_cancel (ex0 : Exchange) (u s : String) (q p : ℚ) (S : Outcome)
    (hval : validateInput u s q p = true) :
    (alookup ((alookup ((bookOf ex0 s).side S) p).getD ⟨0, []⟩).orders u = none →
      cancelOrder ex0 u s q p S = (ex0, .failed .orderNotFound)) ∧
    ∀ owned,
      alookup ((alookup ((bookOf ex0 s).side S) p).getD ⟨0, []⟩).orders u = some owned →
      (S = .no → (alookup (stocksOf ex0 u) s).isSome) →
      (cancelOrder ex0 u s q p S).2 = Res.canceled ∧
      (S = .yes →
        cashOf (cancelOrder ex0 u s q p S).1 u =
          ⟨(cashOf ex0 u).balance + qmin q owned * p,
            (cashOf ex0 u).locked - qmin q owned * p⟩ ∧
        ∀ v t, posOf (cancelOrder ex0 u s q p S).1 v t = posOf ex0 v t) ∧
      (S = .no →
        posOf (cancelOrder ex0 u s q p S).1 u s =
          ⟨(posOf ex0 u s).yes,
            ⟨(posOf ex0 u s).no.quantity + qmin q owned,
              (posOf ex0 u s).no.locked - qmin q owned⟩⟩ ∧
        ∀ v, cashOf (cancelOrder ex0 u s q p S).1 v = cashOf ex0 v) ∧
      (∀ v, v ≠ u → cashOf (cancelOrder ex0 u s q p S).1 v = cashOf ex0 v) ∧
      ∀ v t, v ≠ u → posOf (cancelOrder ex0 u s q p S).1 v t = posOf ex0 v t := by
  constructor
  · intro h
    simp only [cancelOrder, hval, not_true, if_false]
    cases hbk : alookup ex0.book s with
    | none => simp only [hbk]
    | some bk =>
      cases hl : alookup (bk.side S) p with
      | none => simp only [hbk, hl]
      | some lvl =>
        have hlvl : alookup lvl.orders u = none := by
          simpa [bookOf, hbk, hl] using h
        simp only [hbk, hl, hlvl]
  · intro owned h hrec
    cases hbk : alookup ex0.book s with
    | none =>
      exfalso
      cases S <;> simp [bookOf, hbk, emptyBook, SymBook.side, alookup] at h
    | some bk =>
      cases hl : alookup (bk.side S) p with
      | none => exfalso; simp [bookOf, hbk, hl, alookup] at h
      | some lvl =>
        have ho : alookup lvl.orders u = some owned := by
          simpa [bookOf, hbk, hl] using h
        cases S with
        | yes =>
          have hred : cancelOrder ex0 u s q p Outcome.yes =
              (updCash (updateOrderbookAfterCancel ex0 s Outcome.yes p (qmin q owned) u) u
                  (fun c => ⟨c.balance + qmin q owned * p, c.locked - qmin q owned * p⟩),
                Res.canceled) := by
            simp only [cancelOrder, hval, not_true, if_false, hbk, ho, hl,
              updateBalancesAfterCancel]
          rw [hred]
          refine ⟨rfl, fun _ => ⟨?_, fun v t => rfl⟩, fun hco => absurd hco (by decide),
            fun v hv => ?_, fun v t hv => rfl⟩
          · rw [cashOf_updCash_self]; rfl
          · rw [cashOf_updCash_ne _ _ hv]; rfl
        | no =>
          have hsrec := hrec rfl
          cases hsb : alookup (stocksOf ex0 u) s with
          | none => rw [hsb] at hsrec; cases hsrec
          | some sb =>
            have hred : cancelOrder ex0 u s q p Outcome.no =
                (updStock (updateOrderbookAfterCancel ex0 s Outcome.no p (qmin q owned) u)
                    u s (fun b => { b with no := ⟨b.no.quantity + qmin q owned,
                      b.no.locked - qmin q owned⟩ }),
                  Res.canceled) := by
              have hsb1 : alookup (stocksOf (updateOrderbookAfterCancel ex0 s Outcome.no p
                  (qmin q owned) u) u) s = some sb := hsb
              simp only [cancelOrder, hval, not_true, if_false, hbk, ho, hl,
                updateBalancesAfterCancel, hsb1, Option.isNone_some, Bool.false_eq_true,
                if_false]
            rw [hred]
            refine ⟨rfl, fun hco => absurd hco (by decide),
              fun _ => ⟨?_, fun v => rfl⟩, fun v hv => rfl, fun v t hv => ?_⟩
            · rw [posOf_updStock_self]; rfl
            · rw [posOf_updStock_ne_user _ _ _ hv]; rfl

/-- C8 witness: the amended cancel theorem applied to the concrete
resting NO buy of `exC8` — the refund goes to the NO inventory record. -/
theorem claim8_witness :
    posOf (cancelOrder exC8 "B" "s" 10 5 Outcome.no).1 "B" "s" =
      ⟨(posOf exC8 "B" "s").yes,
        ⟨(posOf exC8 "B" "s").no.quantity + qmin 10 10,
          (posOf exC8 "B" "s").no.locked - qmin 10 10⟩⟩ :=
  (((claim8_cancel exC8 "B" "s" 10 5 Outcome.no (by decide)).2 10 (by decide)
    (fun _ => by decide)).2.2.1 rfl).1

/-! ## Claims C9 and C10 -/

theorem book_updateBalancesAfterMinting (ex : Exchange) (u s : String)
    (qty totalCost : ℚ) :
    (updateBalancesAfterMinting ex u s qty totalCost).book = ex.book := rfl

/-- C9: for every valid mint of `q` at price `p` by a user whose free
cash covers `q*p`, exactly `q*p` is debited from the free cash (locked
cash unchanged, so total system cash falls by exactly `q*p`) and the
user's free YES and free NO inventory in `s` each grow by exactly `q`
(locked inventory unchanged); the book and every other user's cash and
positions are untouched. -/
theorem claim9_mint_conservation (ex0 : Exchange) (u s : String) (q p : ℚ)
    (hval : validateMintTokensInput u s q p = true)
    (hcash : q * p ≤ (cashOf ex0 u).balance) :
    (mintTokens ex0 u s q p).2 = Res.minted ∧
    cashOf (mintTokens ex0 u s q p).1 u =
      ⟨(cashOf ex0 u).balance - q * p, (cashOf ex0 u).locked⟩ ∧
    totalCash (mintTokens ex0 u s q p).1 = totalCash ex0 - q * p ∧
    posOf (mintTokens ex0 u s q p).1 u s =
      ⟨⟨(posOf ex0 u s).yes.quantity + q, (posOf ex0 u s).yes.locked⟩,
        ⟨(posOf ex0 u s).no.quantity + q, (posOf ex0 u s).no.locked⟩⟩ ∧
    (mintTokens ex0 u s q p).1.book = ex0.book ∧
    (∀ v, v ≠ u → cashOf (mintTokens ex0 u s q p).1 v = cashOf ex0 v) ∧
    ∀ v t, v ≠ u ∨ t ≠ s → posOf (mintTokens ex0 u s q p).1 v t = posOf ex0 v t := by
  have hini : cashOf (initialiseUserBalances ex0 u) u = cashOf ex0 u :=
    cashOf_initialiseUserBalances ex0 u
  have hnl : ¬ (cashOf (initialiseUserBalances ex0 u) u).balance < q * p := by
    rw [hini]; exact not_lt.mpr hcash
  have hred : mintTokens ex0 u s q p =
      (updateBalancesAfterMinting (initialiseUserBalances ex0 u) u s q (q * p),
        Res.minted) := by
    simp only [mintTokens, hval, not_true, if_false, hnl]
  rw [hred]
  refine ⟨rfl, ?_, ?_, ?_, ?_, ?_, ?_⟩
  · show cashOf (updateBalancesAfterMinting (initialiseUserBalances ex0 u) u s q (q * p))
        u = _
    unfold updateBalancesAfterMinting
    rw [cashOf_updStock, cashOf_updStock, cashOf_ensureStockBalanceExists,
      cashOf_updCash_self, hini]
  · show totalCash (updateBalancesAfterMinting (initialiseUserBalances ex0 u) u s q
        (q * p)) = _
    unfold updateBalancesAfterMinting
    rw [totalCash_updStock, totalCash_updStock, totalCash_ensureStockBalanceExists,
      totalCash_updCash, totalCash_initialiseUserBalances, hini]
    simp only [cbTotal]
    ring
  · show posOf (updateBalancesAfterMinting (initialiseUserBalances ex0 u) u s q (q * p))
        u s = _
    unfold updateBalancesAfterMinting
    rw [posOf_updStock_self, posOf_updStock_self, posOf_ensureStockBalanceExists,
      posOf_updCash, posOf_initialiseUserBalances]
  · show (updateBalancesAfterMinting (initialiseUserBalances ex0 u) u s q (q * p)).book
        = _
    rw [book_updateBalancesAfterMinting, book_initialiseUserBalances]
  · intro v hv
    show cashOf (updateBalancesAfterMinting (initialiseUserBalances ex0 u) u s q (q * p))
        v = _
    unfold updateBalancesAfterMinting
    rw [cashOf_updStock, cashOf_updStock, cashOf_ensureStockBalanceExists,
      cashOf_updCash_ne _ _ hv, cashOf_initialiseUserBalances]
  · intro v t hvt
    show posOf (updateBalancesAfterMinting (initialiseUserBalances ex0 u) u s q (q * p))
        v t = _
    unfold updateBalancesAfterMinting
    rcases hvt with hv | ht
    · rw [posOf_updStock_ne_user _ _ _ hv, posOf_updStock_ne_user _ _ _ hv,
        posOf_ensureStockBalanceExists, posOf_updCash, posOf_initialiseUserBalances]
    · rw [posOf_updStock_ne_sym _ _ _ ht, posOf_updStock_ne_sym _ _ _ ht,
        posOf_ensureStockBalanceExists, posOf_updCash, posOf_initialiseUserBalances]

/-- C9 witness: minting 10 pairs at price 5 on `exC9` — the user's cash
falls from `(100, 7)` by exactly 50 on the free side. -/
theorem claim9_witness :
    cashOf (mintTokens exC9 "u" "m" 10 5).1 "u" =
      ⟨(cashOf exC9 "u").balance - 10 * 5, (cashOf exC9 "u").locked⟩ :=
  (claim9_mint_conservation exC9 "u" "m" 10 5 (by decide) (by decide)).2.1

/-- C10: minting does not require the symbol to exist. For every symbol
`s` with no book entry, a valid mint whose cost is covered by the free
cash succeeds (never `SYMBOL_NOT_FOUND`), creates the user's per-symbol
position record on demand, and leaves the book unchanged — in
particular it still has no entry for `s`. -/
theorem claim10_mint_without_symbol (ex0 : Exchange) (u s : String) (q p : ℚ)
    (hval : validateMintTokensInput u s q p = true)
    (hcash : q * p ≤ (cashOf ex0 u).balance)
    (hbook : alookup ex0.book s = none) :
    (mintTokens ex0 u s q p).2 = Res.minted ∧
    (mintTokens ex0 u s q p).1.book = ex0.book ∧
    (alookup (stocksOf (mintTokens ex0 u s q p).1 u) s).isSome = true ∧
    alookup (mintTokens ex0 u s q p).1.book s = none := by
  obtain ⟨hres, -, -, -, hbk, -, -⟩ :=
    claim9_mint_conservation ex0 u s q p hval hcash
  refine ⟨hres, hbk, ?_, by rw [hbk]; exact hbook⟩
  have hnl : ¬ (cashOf (initialiseUserBalances ex0 u) u).balance < q * p := by
    rw [cashOf_initialiseUserBalances]; exact not_lt.mpr hcash
  have hred : mintTokens ex0 u s q p =
      (updateBalancesAfterMinting (initialiseUserBalances ex0 u) u s q (q * p),
        Res.minted) := by
    simp only [mintTokens, hval, not_true, if_false, hnl]
  rw [hred]
  show (alookup (stocksOf (updStock _ u s _) u) s).isSome = true
  simp [stocksOf, updStock, alookup_aupd_self]

/-- C10 witness: minting on `exC10`, whose book has no entry at all for
the fresh symbol `m` — the mint succeeds and the book stays empty. -/
theorem claim10_witness :
    (mintTokens exC10 "u" "m" 10 5).2 = Res.minted ∧
    (mintTokens exC10 "u" "m" 10 5).1.book = exC10.book ∧
    (alookup (stocksOf (mintTokens exC10 "u" "m" 10 5).1 "u") "m").isSome = true ∧
    alookup (mintTokens exC10 "u" "m" 10 5).1.book "m" = none :=
  claim10_mint_without_symbol exC10 "u" "m" 10 5 (by decide) (by decide) (by decide)

/-! ## Claim C3 -/

theorem qmin_comm (a b : ℚ) : qmin a b = qmin b a := by
  unfold qmin
  rcases le_or_lt a b with h | h
  · rcases le_or_lt b a with h' | h'
    · simp [h, h', le_antisymm h h']
    · simp [h, not_le.mpr h']
  · simp [not_le.mpr h, le_of_lt h]

theorem sub_qmin_eq_zero_iff (a b : ℚ) : a - qmin a b = 0 ↔ a ≤ b := by
  unfold qmin
  split
  · simpa using (by assumption : a ≤ b)
  · rw [sub_eq_zero]
    exact iff_of_false (fun hab => (by assumption : ¬ a ≤ b) (le_of_eq hab))
      (by assumption)

theorem sub_qmin_right_eq_zero_iff (a b : ℚ) : b - qmin a b = 0 ↔ b ≤ a := by
  rw [qmin_comm]
  exact sub_qmin_eq_zero_iff b a

theorem setLevelOrders_book (ex : Exchange) (s : String) (S : Outcome) (p : ℚ)
    (od : List (String × ℚ)) :
    (setLevelOrders ex s S p od).book =
      aupd ex.book s
        (fun bk => bk.setSide S
          (aupd (bk.side S) p (fun lvl => { lvl with orders := od }) ⟨0, []⟩))
        emptyBook := rfl

theorem setLevelTotal_book (ex : Exchange) (s : String) (S : Outcome) (p t : ℚ) :
    (setLevelTotal ex s S p t).book =
      aupd ex.book s
        (fun bk => bk.setSide S
          (aupd (bk.side S) p (fun lvl => { lvl with total := t }) ⟨0, []⟩))
        emptyBook := rfl

theorem eraseLevel_book (ex : Exchange) (s : String) (S : Outcome) (p : ℚ) :
    (eraseLevel ex s S p).book =
      aupd ex.book s (fun bk => bk.setSide S (aerase (bk.side S) p)) emptyBook := rfl

theorem sweepBookStep_eq_both (ex exB : Exchange) (s : String) (py pn ty tn : ℚ)
    (odY odN : List (String × ℚ)) (hb : exB.book = ex.book)
    (hty : ty = ((alookup (bookOf ex s).yes py).getD ⟨0, []⟩).total)
    (htn : tn = ((alookup (bookOf ex s).no pn).getD ⟨0, []⟩).total)
    (h1 : ty ≤ tn) (h2 : tn ≤ ty) :
    (eraseLevel (eraseLevel (setLevelTotal (setLevelTotal
        (setLevelOrders (setLevelOrders exB s Outcome.yes py odY) s Outcome.no pn odN)
        s Outcome.yes py (ty - qmin ty tn)) s Outcome.no pn (tn - qmin ty tn))
      s Outcome.yes py) s Outcome.no pn).book =
      (sweepBookStep ex s py pn odY odN).book := by
  subst hty htn
  unfold sweepBookStep
  dsimp only
  rw [if_pos ((sub_qmin_right_eq_zero_iff _ _).mpr h2),
    if_pos ((sub_qmin_eq_zero_iff _ _).mpr h1)]
  simp only [eraseLevel_book, setLevelTotal_book, setLevelOrders_book, hb]

theorem sweepBookStep_eq_yes (ex exB : Exchange) (s : String) (py pn ty tn : ℚ)
    (odY odN : List (String × ℚ)) (hb : exB.book = ex.book)
    (hty : ty = ((alookup (bookOf ex s).yes py).getD ⟨0, []⟩).total)
    (htn : tn = ((alookup (bookOf ex s).no pn).getD ⟨0, []⟩).total)
    (h1 : ty ≤ tn) (h2 : ¬ tn ≤ ty) :
    (eraseLevel (setLevelTotal (setLevelTotal
        (setLevelOrders (setLevelOrders exB s Outcome.yes py odY) s Outcome.no pn odN)
        s Outcome.yes py (ty - qmin ty tn)) s Outcome.no pn (tn - qmin ty tn))
      s Outcome.yes py).book =
      (sweepBookStep ex s py pn odY odN).book := by
  subst hty htn
  unfold sweepBookStep
  dsimp only
  rw [if_neg (fun hz => h2 ((sub_qmin_right_eq_zero_iff _ _).mp hz)),
    if_pos ((sub_qmin_eq_zero_iff _ _).mpr h1)]
  simp only [eraseLevel_book, setLevelTotal_book, setLevelOrders_book, hb]

theorem sweepBookStep_eq_no (ex exB : Exchange) (s : String) (py pn ty tn : ℚ)
    (odY odN : List (String × ℚ)) (hb : exB.book = ex.book)
    (hty : ty = ((alookup (bookOf ex s).yes py).getD ⟨0, []⟩).total)
    (htn : tn = ((alookup (bookOf ex s).no pn).getD ⟨0, []⟩).total)
    (h1 : ¬ ty ≤ tn) :
    (eraseLevel (setLevelTotal (setLevelTotal
        (setLevelOrders (setLevelOrders exB s Outcome.yes py odY) s Outcome.no pn odN)
        s Outcome.yes py (ty - qmin ty tn)) s Outcome.no pn (tn - qmin ty tn))
      s Outcome.no pn).book =
      (sweepBookStep ex s py pn odY odN).book := by
  subst hty htn
  unfold sweepBookStep
  dsimp only
  rw [if_pos ((sub_qmin_right_eq_zero_iff _ _).mpr (le_of_not_le h1)),
    if_neg (fun hz => h1 ((sub_qmin_eq_zero_iff _ _).mp hz))]
  simp only [eraseLevel_book, setLevelTotal_book, setLevelOrders_book, hb]

/-- When the heads do not cross, one loop iteration stops untouched. -/
theorem sweepLoop_stop (s : String) (fuel : Nat) (ex : Exchange) (py pn : ℚ)
    (ytl ntl : List ℚ) (hlt : py < pn) :
    sweepLoop s (fuel + 1) ex (py :: ytl) (pn :: ntl) = ⟨ex, [], false⟩ := by
  simp only [sweepLoop]
  rw [if_neg (not_le.mpr hlt)]

/-- The book-sweep loop of the engine satisfies the spec-side sweep
relation (with half-up midpoint rounding) whenever it does not crash. -/
theorem sweepLoop_refines (s : String) :
    ∀ (fuel : Nat) (ex : Exchange) (ys ns : List ℚ),
      (sweepLoop s fuel ex ys ns).crashed = false →
      SweepR s ex ys ns (sweepLoop s fuel ex ys ns).ex := by
  intro fuel
  induction fuel with
  | zero =>
    intro ex ys ns h
    simp [sweepLoop] at h
  | succ n ih =>
    intro ex ys ns h
    match ys, ns with
    | [], ns =>
      simp only [sweepLoop]
      exact SweepR.yesEmpty ex ns
    | py :: ytl, [] =>
      simp only [sweepLoop]
      exact SweepR.noEmpty ex (py :: ytl)
    | py :: ytl, pn :: ntl =>
      simp only [sweepLoop] at h ⊢
      by_cases hc : pn ≤ py
      · rw [if_pos hc] at h ⊢
        obtain ⟨hex1, hlog1⟩ := executeTrade_spec ex s (roundHalfUp2 ((py + pn) / 2))
          (qmin ((alookup (bookOf ex s).yes py).getD ⟨0, []⟩).total
            ((alookup (bookOf ex s).no pn).getD ⟨0, []⟩).total)
          ((alookup (bookOf ex s).yes py).getD ⟨0, []⟩).orders
          ((alookup (bookOf ex s).no pn).getD ⟨0, []⟩).orders
        set r1 := executeTrade ex s (roundHalfUp2 ((py + pn) / 2))
          (qmin ((alookup (bookOf ex s).yes py).getD ⟨0, []⟩).total
            ((alookup (bookOf ex s).no pn).getD ⟨0, []⟩).total)
          ((alookup (bookOf ex s).yes py).getD ⟨0, []⟩).orders
          ((alookup (bookOf ex s).no pn).getD ⟨0, []⟩).orders with hr1
        have hr1book : r1.ex.book = ex.book := by rw [hex1, applyTrades_book]
        by_cases hst : r1.status = ExecStatus.crashed
        · rw [if_pos hst] at h
          simp at h
        · rw [if_neg hst] at h ⊢
          by_cases h1 : ((alookup (bookOf ex s).yes py).getD ⟨0, []⟩).total ≤
              ((alookup (bookOf ex s).no pn).getD ⟨0, []⟩).total
          · by_cases h2 : ((alookup (bookOf ex s).no pn).getD ⟨0, []⟩).total ≤
                ((alookup (bookOf ex s).yes py).getD ⟨0, []⟩).total
            · rw [if_pos h1, if_pos h2] at h ⊢
              set exA := eraseLevel (eraseLevel (setLevelTotal (setLevelTotal
                  (setLevelOrders (setLevelOrders r1.ex s Outcome.yes py r1.buyers)
                    s Outcome.no pn r1.sellers)
                  s Outcome.yes py
                  (((alookup (bookOf ex s).yes py).getD ⟨0, []⟩).total -
                    qmin ((alookup (bookOf ex s).yes py).getD ⟨0, []⟩).total
                      ((alookup (bookOf ex s).no pn).getD ⟨0, []⟩).total))
                  s Outcome.no pn
                  (((alookup (bookOf ex s).no pn).getD ⟨0, []⟩).total -
                    qmin ((alookup (bookOf ex s).yes py).getD ⟨0, []⟩).total
                      ((alookup (bookOf ex s).no pn).getD ⟨0, []⟩).total))
                s Outcome.yes py) s Outcome.no pn with hexA
              refine SweepR.cross ex exA _ py pn ytl ntl r1.buyers r1.sellers r1.log hc
                (fun t ht => (hlog1 t ht).1) ?_ ?_ ?_ ?_
              · rw [hexA, eraseLevel_inr, eraseLevel_inr, setLevelTotal_inr,
                  setLevelTotal_inr, setLevelOrders_inr, setLevelOrders_inr, hex1]
              · rw [hexA, eraseLevel_stock, eraseLevel_stock, setLevelTotal_stock,
                  setLevelTotal_stock, setLevelOrders_stock, setLevelOrders_stock, hex1]
              · rw [hexA]
                exact sweepBookStep_eq_both ex r1.ex s py pn _ _ r1.buyers r1.sellers
                  hr1book rfl rfl h1 h2
              · rw [if_pos ((sub_qmin_eq_zero_iff _ _).mpr h1),
                  if_pos ((sub_qmin_right_eq_zero_iff _ _).mpr h2)]
                exact ih exA ytl ntl h
            · rw [if_pos h1, if_neg h2] at h ⊢
              set exA := eraseLevel (setLevelTotal (setLevelTotal
                  (setLevelOrders (setLevelOrders r1.ex s Outcome.yes py r1.buyers)
                    s Outcome.no pn r1.sellers)
                  s Outcome.yes py
                  (((alookup (bookOf ex s).yes py).getD ⟨0, []⟩).total -
                    qmin ((alookup (bookOf ex s).yes py).getD ⟨0, []⟩).total
                      ((alookup (bookOf ex s).no pn).getD ⟨0, []⟩).total))
                  s Outcome.no pn
                  (((alookup (bookOf ex s).no pn).getD ⟨0, []⟩).total -
                    qmin ((alookup (bookOf ex s).yes py).getD ⟨0, []⟩).total
                      ((alookup (bookOf ex s).no pn).getD ⟨0, []⟩).total))
                s Outcome.yes py with hexA
              refine SweepR.cross ex exA _ py pn ytl ntl r1.buyers r1.sellers r1.log hc
                (fun t ht => (hlog1 t ht).1) ?_ ?_ ?_ ?_
              · rw [hexA, eraseLevel_inr, setLevelTotal_inr,
                  setLevelTotal_inr, setLevelOrders_inr, setLevelOrders_inr, hex1]
              · rw [hexA, eraseLevel_stock, setLevelTotal_stock,
                  setLevelTotal_stock, setLevelOrders_stock, setLevelOrders_stock, hex1]
              · rw [hexA]
                exact sweepBookStep_eq_yes ex r1.ex s py pn _ _ r1.buyers r1.sellers
                  hr1book rfl rfl h1 h2
              · rw [if_pos ((sub_qmin_eq_zero_iff _ _).mpr h1),
                  if_neg (fun hz => h2 ((sub_qmin_right_eq_zero_iff _ _).mp hz))]
                exact ih exA ytl (pn :: ntl) h
          · rw [if_neg h1] at h ⊢
            set exA := eraseLevel (setLevelTotal (setLevelTotal
                (setLevelOrders (setLevelOrders r1.ex s Outcome.yes py r1.buyers)
                  s Outcome.no pn r1.sellers)
                s Outcome.yes py
                (((alookup (bookOf ex s).yes py).getD ⟨0, []⟩).total -
                  qmin ((alookup (bookOf ex s).yes py).getD ⟨0, []⟩).total
                    ((alookup (bookOf ex s).no pn).getD ⟨0, []⟩).total))
                s Outcome.no pn
                (((alookup (bookOf ex s).no pn).getD ⟨0, []⟩).total -
                  qmin ((alookup (bookOf ex s).yes py).getD ⟨0, []⟩).total
                    ((alookup (bookOf ex s).no pn).getD ⟨0, []⟩).total))
              s Outcome.no pn with hexA
            refine SweepR.cross ex exA _ py pn ytl ntl r1.buyers r1.sellers r1.log hc
              (fun t ht => (hlog1 t ht).1) ?_ ?_ ?_ ?_
            · rw [hexA, eraseLevel_inr, setLevelTotal_inr,
                setLevelTotal_inr, setLevelOrders_inr, setLevelOrders_inr, hex1]
            · rw [hexA, eraseLevel_stock, setLevelTotal_stock,
                setLevelTotal_stock, setLevelOrders_stock, setLevelOrders_stock, hex1]
            · rw [hexA]
              exact sweepBookStep_eq_no ex r1.ex s py pn _ _ r1.buyers r1.sellers
                hr1book rfl rfl h1
            · rw [if_neg (fun hz => h1 ((sub_qmin_eq_zero_iff _ _).mp hz)),
                if_pos ((sub_qmin_right_eq_zero_iff _ _).mpr (le_of_not_le h1))]
              exact ih exA (py :: ytl) ntl h
      · rw [if_neg hc] at h ⊢
        exact SweepR.stop ex py pn ytl ntl (lt_of_not_ge hc)

/-- C3 (amended): the book-sweep pass (`matchOrders`) implements exactly
the §4.4.3 iteration over the two sorted, range-filtered queues, with
one correction: the midpoint trade price is rounded *half-up* to 2
decimal places (decimal.js's default `toDecimalPlaces(2)`), not
half-even as the claim states. While both queues are non-empty with
heads `py ≥ pn`, a trade of quantity `k = min` of the two head level
totals executes at `roundHalfUp2 ((py + pn) / 2)`; when `py < pn` the
sweep stops with no further trades and an unchanged state. -/
theorem claim3_sweep_algorithm (ex : Exchange) (s : String)
    (hcr : (matchOrders ex s).crashed = false) :
    SweepR s ex (yesQueue ex s) (noQueue ex s) (matchOrders ex s).ex ∧
    ∀ py pn ytl ntl, yesQueue ex s = py :: ytl → noQueue ex s = pn :: ntl →
      py < pn → (matchOrders ex s).ex = ex ∧ (matchOrders ex s).log = [] := by
  by_cases hb : (alookup ex.book s).isNone
  · have hys : yesQueue ex s = [] := by
      simp [yesQueue, bookOf, Option.isNone_iff_eq_none.mp hb, emptyBook]
    constructor
    · simp only [matchOrders, if_pos hb]
      rw [hys]
      exact SweepR.yesEmpty ex (noQueue ex s)
    · intro py pn ytl ntl hys' hns' hlt
      rw [hys] at hys'
      cases hys'
  · constructor
    · simp only [matchOrders, if_neg hb] at hcr ⊢
      exact sweepLoop_refines s _ ex _ _ hcr
    · intro py pn ytl ntl hys hns hlt
      simp only [matchOrders, if_neg hb, hys, hns]
      rw [sweepLoop_stop s _ ex py pn ytl ntl hlt]
      exact ⟨rfl, rfl⟩

/-- C3 counterexample: the claim says the crossing trade executes at the
midpoint rounded *half-even*. On `exC3` (YES bid 1.14, NO bid 1.11) the
midpoint is 1.125, a tie: half-even gives 1.12, but the sweep executes
the trade at 1.13 (decimal.js rounds half-up by default). -/
theorem claim3_counterexample :
    (matchOrders exC3 "s").crashed = false ∧
    (matchOrders exC3 "s").log = [⟨"A", "B", 113/100, 10⟩] ∧
    roundHalfEven2 ((57/50 + 111/100) / 2) = 112/100 ∧
    (113/100 : ℚ) ≠ 112/100 := by
  decide

/-- C3 witness: the amended sweep theorem applied to the concrete
crossing state `exC3`. -/
theorem claim3_witness :
    SweepR "s" exC3 (yesQueue exC3 "s") (noQueue exC3 "s") (matchOrders exC3 "s").ex :=
  (claim3_sweep_algorithm exC3 "s" (by decide)).1

/-! ## Claim C6 -/

theorem mem_keys_aupd {l : List (α × β)} {k a : α} {f : β → β} {d : β}
    (h : a ∈ (aupd l k f d).map Prod.fst) : a ∈ l.map Prod.fst ∨ a = k := by
  induction l with
  | nil =>
    simp [aupd] at h
    exact Or.inr h
  | cons hd t ih =>
    obtain ⟨x, y⟩ := hd
    by_cases hx : x = k
    · subst hx
      simp [aupd] at h ⊢
      tauto
    · simp only [aupd, if_neg hx, List.map_cons, List.mem_cons] at h ⊢
      rcases h with h | h
      · exact Or.inl (Or.inl h)
      · rcases ih h with h' | h'
        · exact Or.inl (Or.inr h')
        · exact Or.inr h'

theorem nodup_keys_aupd {l : List (α × β)} {k : α} {f : β → β} {d : β}
    (h : (l.map Prod.fst).Nodup) : ((aupd l k f d).map Prod.fst).Nodup := by
  induction l with
  | nil => simp [aupd]
  | cons hd t ih =>
    obtain ⟨x, y⟩ := hd
    simp only [List.map_cons, List.nodup_cons] at h
    by_cases hx : x = k
    · subst hx
      simpa [aupd] using h
    · simp only [aupd, if_neg hx, List.map_cons, List.nodup_cons]
      refine ⟨fun hmem => ?_, ih h.2⟩
      rcases mem_keys_aupd hmem with h' | h'
      · exact h.1 h'
      · exact hx h'

theorem nodup_keys_aensure {l : List (α × β)} {k : α} {d : β}
    (h : (l.map Prod.fst).Nodup) : ((aensure l k d).map Prod.fst).Nodup := by
  unfold aensure
  split
  · exact h
  · rename_i hnone
    have hk : k ∉ l.map Prod.fst := by
      rw [← alookup_eq_none]
      exact Option.not_isSome_iff_eq_none.mp hnone
    rw [List.map_append]
    simp only [List.nodup_append, List.map_cons, List.map_nil]
    refine ⟨h, List.nodup_singleton k, ?_⟩
    intro a ha hb
    simp only [List.mem_singleton] at hb
    exact hk (hb ▸ ha)

theorem mem_keys_aerase {l : List (α × β)} {k a : α}
    (h : a ∈ (aerase l k).map Prod.fst) : a ∈ l.map Prod.fst := by
  induction l with
  | nil => simp [aerase] at h
  | cons hd t ih =>
    obtain ⟨x, y⟩ := hd
    by_cases hx : x = k
    · subst hx
      simp only [aerase, if_pos rfl] at h
      exact List.mem_cons_of_mem _ h
    · simp only [aerase, if_neg hx, List.map_cons, List.mem_cons] at h ⊢
      rcases h with h | h
      · exact Or.inl h
      · exact Or.inr (ih h)

theorem ne_of_mem_keys_aerase {l : List (α × β)} {k a : α}
    (hnd : (l.map Prod.fst).Nodup)
    (h : a ∈ (aerase l k).map Prod.fst) : a ≠ k := by
  induction l with
  | nil => simp [aerase] at h
  | cons hd t ih =>
    obtain ⟨x, y⟩ := hd
    simp only [List.map_cons, List.nodup_cons] at hnd
    by_cases hx : x = k
    · subst hx
      simp only [aerase, if_pos rfl] at h
      intro ha
      exact hnd.1 (ha ▸ h)
    · simp only [aerase, if_neg hx, List.map_cons, List.mem_cons] at h
      rcases h with h | h
      · intro ha
        exact hx (by rw [← h]; exact ha)
      · exact ih hnd.2 h

theorem nodup_keys_aerase {l : List (α × β)} {k : α}
    (h : (l.map Prod.fst).Nodup) : ((aerase l k).map Prod.fst).Nodup := by
  induction l with
  | nil => simp [aerase]
  | cons hd t ih =>
    obtain ⟨x, y⟩ := hd
    simp only [List.map_cons, List.nodup_cons] at h
    by_cases hx : x = k
    · subst hx
      simp only [aerase, if_pos rfl]
      exact h.2
    · simp only [aerase, if_neg hx, List.map_cons, List.nodup_cons]
      exact ⟨fun hmem => h.1 (mem_keys_aerase hmem), ih h.2⟩

theorem yes_setSide_yes (bk : SymBook) (sd : List (ℚ × PriceLevel)) :
    (bk.setSide Outcome.yes sd).yes = sd := rfl

theorem no_setSide_yes (bk : SymBook) (sd : List (ℚ × PriceLevel)) :
    (bk.setSide Outcome.yes sd).no = bk.no := rfl

theorem yes_setSide_no (bk : SymBook) (sd : List (ℚ × PriceLevel)) :
    (bk.setSide Outcome.no sd).yes = bk.yes := rfl

theorem no_setSide_no (bk : SymBook) (sd : List (ℚ × PriceLevel)) :
    (bk.setSide Outcome.no sd).no = sd := rfl

theorem bookOf_setLevelOrders (ex : Exchange) (s : String) (S : Outcome) (p : ℚ)
    (od : List (String × ℚ)) :
    bookOf (setLevelOrders ex s S p od) s =
      (bookOf ex s).setSide S
        (aupd ((bookOf ex s).side S) p (fun lvl => { lvl with orders := od }) ⟨0, []⟩) := by
  simp [bookOf, setLevelOrders, alookup_aupd_self]

theorem bookOf_setLevelTotal (ex : Exchange) (s : String) (S : Outcome) (p t : ℚ) :
    bookOf (setLevelTotal ex s S p t) s =
      (bookOf ex s).setSide S
        (aupd ((bookOf ex s).side S) p (fun lvl => { lvl with total := t }) ⟨0, []⟩) := by
  simp [bookOf, setLevelTotal, alookup_aupd_self]

theorem bookOf_eraseLevel (ex : Exchange) (s : String) (S : Outcome) (p : ℚ) :
    bookOf (eraseLevel ex s S p) s =
      (bookOf ex s).setSide S (aerase ((bookOf ex s).side S) p) := by
  simp [bookOf, eraseLevel, alookup_aupd_self]

theorem bookOf_updateOrderbook (ex : Exchange) (s : String) (S : Outcome)
    (p qty : ℚ) (u : String) :
    bookOf (updateOrderbook ex s S p qty u) s =
      (bookOf ex s).setSide S
        (aupd (aensure ((bookOf ex s).side S) p ⟨0, []⟩) p
          (fun lvl =>
            ⟨lvl.total + qty, aupd (aensure lvl.orders u 0) u (· + qty) 0⟩)
          ⟨0, []⟩) := by
  simp [bookOf, updateOrderbook, alookup_aupd_self]

theorem sorted_ge_head {a b : ℚ} {l : List ℚ} (hs : List.Sorted (· ≥ ·) (a :: l))
    (hb : b ∈ a :: l) : b ≤ a := by
  rcases List.mem_cons.mp hb with h | h
  · exact le_of_eq h
  · exact List.rel_of_sorted_cons hs b h

theorem sorted_le_head {a b : ℚ} {l : List ℚ} (hs : List.Sorted (· ≤ ·) (a :: l))
    (hb : b ∈ a :: l) : a ≤ b := by
  rcases List.mem_cons.mp hb with h | h
  · exact le_of_eq h.symm
  · exact List.rel_of_sorted_cons hs b h

theorem mem_validKeys {sd : List (ℚ × PriceLevel)} {k : ℚ} :
    k ∈ validKeys sd ↔ k ∈ sd.map Prod.fst ∧ isValidPrice k = true := by
  simp [validKeys, List.mem_filter]

/-- Invariant proof for the book-sweep loop: if every valid YES price is
in the descending queue and every valid NO price in the ascending queue,
then after a non-crashing sweep every remaining valid YES bid is
strictly below every remaining valid NO bid. -/
theorem sweep_separation (s : String) :
    ∀ (fuel : Nat) (ex : Exchange) (ys ns : List ℚ),
      ((bookOf ex s).yes.map Prod.fst).Nodup →
      ((bookOf ex s).no.map Prod.fst).Nodup →
      List.Sorted (· ≥ ·) ys →
      List.Sorted (· ≤ ·) ns →
      (∀ k ∈ validKeys (bookOf ex s).yes, k ∈ ys) →
      (∀ k ∈ validKeys (bookOf ex s).no, k ∈ ns) →
      (sweepLoop s fuel ex ys ns).crashed = false →
      ∀ py ∈ validKeys (bookOf (sweepLoop s fuel ex ys ns).ex s).yes,
        ∀ pn ∈ validKeys (bookOf (sweepLoop s fuel ex ys ns).ex s).no, py < pn := by
  intro fuel
  induction fuel with
  | zero =>
    intro ex ys ns _ _ _ _ _ _ h
    simp [sweepLoop] at h
  | succ n ih =>
    intro ex ys ns hndY hndN hsY hsN hmY hmN h
    match ys, ns with
    | [], ns =>
      simp only [sweepLoop] at h ⊢
      intro py hpy pn hpn
      exact absurd (hmY py hpy) (List.not_mem_nil py)
    | py0 :: ytl, [] =>
      simp only [sweepLoop] at h ⊢
      intro py hpy pn hpn
      exact absurd (hmN pn hpn) (List.not_mem_nil pn)
    | py0 :: ytl, pn0 :: ntl =>
      simp only [sweepLoop] at h ⊢
      by_cases hc : pn0 ≤ py0
      · rw [if_pos hc] at h ⊢
        obtain ⟨hex1, _⟩ := executeTrade_spec ex s (roundHalfUp2 ((py0 + pn0) / 2))
          (qmin ((alookup (bookOf ex s).yes py0).getD ⟨0, []⟩).total
            ((alookup (bookOf ex s).no pn0).getD ⟨0, []⟩).total)
          ((alookup (bookOf ex s).yes py0).getD ⟨0, []⟩).orders
          ((alookup (bookOf ex s).no pn0).getD ⟨0, []⟩).orders
        set r1 := executeTrade ex s (roundHalfUp2 ((py0 + pn0) / 2))
          (qmin ((alookup (bookOf ex s).yes py0).getD ⟨0, []⟩).total
            ((alookup (bookOf ex s).no pn0).getD ⟨0, []⟩).total)
          ((alookup (bookOf ex s).yes py0).getD ⟨0, []⟩).orders
          ((alookup (bookOf ex s).no pn0).getD ⟨0, []⟩).orders with hr1
        have hbr : bookOf r1.ex s = bookOf ex s := by
          have : r1.ex.book = ex.book := by rw [hex1, applyTrades_book]
          simp [bookOf, this]
        by_cases hst : r1.status = ExecStatus.crashed
        · rw [if_pos hst] at h
          simp at h
        · rw [if_neg hst] at h ⊢
          by_cases h1 : ((alookup (bookOf ex s).yes py0).getD ⟨0, []⟩).total ≤
              ((alookup (bookOf ex s).no pn0).getD ⟨0, []⟩).total
          · by_cases h2 : ((alookup (bookOf ex s).no pn0).getD ⟨0, []⟩).total ≤
                ((alookup (bookOf ex s).yes py0).getD ⟨0, []⟩).total
            · rw [if_pos h1, if_pos h2] at h ⊢
              set exA := eraseLevel (eraseLevel (setLevelTotal (setLevelTotal
                  (setLevelOrders (setLevelOrders r1.ex s Outcome.yes py0 r1.buyers)
                    s Outcome.no pn0 r1.sellers)
                  s Outcome.yes py0
                  (((alookup (bookOf ex s).yes py0).getD ⟨0, []⟩).total -
                    qmin ((alookup (bookOf ex s).yes py0).getD ⟨0, []⟩).total
                      ((alookup (bookOf ex s).no pn0).getD ⟨0, []⟩).total))
                  s Outcome.no pn0
                  (((alookup (bookOf ex s).no pn0).getD ⟨0, []⟩).total -
                    qmin ((alookup (bookOf ex s).yes py0).getD ⟨0, []⟩).total
                      ((alookup (bookOf ex s).no pn0).getD ⟨0, []⟩).total))
                s Outcome.yes py0) s Outcome.no pn0 with hexA
              have hYA : (bookOf exA s).yes =
                  aerase (aupd (aupd (bookOf ex s).yes py0
                    (fun lvl => { lvl with orders := r1.buyers }) ⟨0, []⟩) py0
                    (fun lvl => { lvl with total :=
                      (((alookup (bookOf ex s).yes py0).getD ⟨0, []⟩).total -
                        qmin ((alookup (bookOf ex s).yes py0).getD ⟨0, []⟩).total
                          ((alookup (bookOf ex s).no pn0).getD ⟨0, []⟩).total) }) ⟨0, []⟩)
                    py0 := by
                rw [hexA]
                simp only [bookOf_eraseLevel, bookOf_setLevelTotal, bookOf_setLevelOrders,
                  hbr, SymBook.side, yes_setSide_yes, no_setSide_yes, yes_setSide_no,
                  no_setSide_no]
              have hNA : (bookOf exA s).no =
                  aerase (aupd (aupd (bookOf ex s).no pn0
                    (fun lvl => { lvl with orders := r1.sellers }) ⟨0, []⟩) pn0
                    (fun lvl => { lvl with total :=
                      (((alookup (bookOf ex s).no pn0).getD ⟨0, []⟩).total -
                        qmin ((alookup (bookOf ex s).yes py0).getD ⟨0, []⟩).total
                          ((alookup (bookOf ex s).no pn0).getD ⟨0, []⟩).total) }) ⟨0, []⟩)
                    pn0 := by
                rw [hexA]
                simp only [bookOf_eraseLevel, bookOf_setLevelTotal, bookOf_setLevelOrders,
                  hbr, SymBook.side, yes_setSide_yes, no_setSide_yes, yes_setSide_no,
                  no_setSide_no]
              refine ih exA ytl ntl ?_ ?_ (List.Sorted.of_cons hsY)
                (List.Sorted.of_cons hsN) ?_ ?_ h
              · rw [hYA]
                exact nodup_keys_aerase (nodup_keys_aupd (nodup_keys_aupd hndY))
              · rw [hNA]
                exact nodup_keys_aerase (nodup_keys_aupd (nodup_keys_aupd hndN))
              · intro k hk
                rw [hYA] at hk
                obtain ⟨hk1, hk2⟩ := mem_validKeys.mp hk
                have hne : k ≠ py0 :=
                  ne_of_mem_keys_aerase (nodup_keys_aupd (nodup_keys_aupd hndY)) hk1
                have hk3 := mem_keys_aerase hk1
                rcases mem_keys_aupd hk3 with hk4 | hk4
                · rcases mem_keys_aupd hk4 with hk5 | hk5
                  · have := hmY k (mem_validKeys.mpr ⟨hk5, hk2⟩)
                    rcases List.mem_cons.mp this with h' | h'
                    · exact absurd h' hne
                    · exact h'
                  · exact absurd hk5 hne
                · exact absurd hk4 hne
              · intro k hk
                rw [hNA] at hk
                obtain ⟨hk1, hk2⟩ := mem_validKeys.mp hk
                have hne : k ≠ pn0 :=
                  ne_of_mem_keys_aerase (nodup_keys_aupd (nodup_keys_aupd hndN)) hk1
                have hk3 := mem_keys_aerase hk1
                rcases mem_keys_aupd hk3 with hk4 | hk4
                · rcases mem_keys_aupd hk4 with hk5 | hk5
                  · have := hmN k (mem_validKeys.mpr ⟨hk5, hk2⟩)
                    rcases List.mem_cons.mp this with h' | h'
                    · exact absurd h' hne
                    · exact h'
                  · exact absurd hk5 hne
                · exact absurd hk4 hne
            · rw [if_pos h1, if_neg h2] at h ⊢
              set exA := eraseLevel (setLevelTotal (setLevelTotal
                  (setLevelOrders (setLevelOrders r1.ex s Outcome.yes py0 r1.buyers)
                    s Outcome.no pn0 r1.sellers)
                  s Outcome.yes py0
                  (((alookup (bookOf ex s).yes py0).getD ⟨0, []⟩).total -
                    qmin ((alookup (bookOf ex s).yes py0).getD ⟨0, []⟩).total
                      ((alookup (bookOf ex s).no pn0).getD ⟨0, []⟩).total))
                  s Outcome.no pn0
                  (((alookup (bookOf ex s).no pn0).getD ⟨0, []⟩).total -
                    qmin ((alookup (bookOf ex s).yes py0).getD ⟨0, []⟩).total
                      ((alookup (bookOf ex s).no pn0).getD ⟨0, []⟩).total))
                s Outcome.yes py0 with hexA
              have hYA : (bookOf exA s).yes =
                  aerase (aupd (aupd (bookOf ex s).yes py0
                    (fun lvl => { lvl with orders := r1.buyers }) ⟨0, []⟩) py0
                    (fun lvl => { lvl with total :=
                      (((alookup (bookOf ex s).yes py0).getD ⟨0, []⟩).total -
                        qmin ((alookup (bookOf ex s).yes py0).getD ⟨0, []⟩).total
                          ((alookup (bookOf ex s).no pn0).getD ⟨0, []⟩).total) }) ⟨0, []⟩)
                    py0 := by
                rw [hexA]
                simp only [bookOf_eraseLevel, bookOf_setLevelTotal, bookOf_setLevelOrders,
                  hbr, SymBook.side, yes_setSide_yes, no_setSide_yes, yes_setSide_no,
                  no_setSide_no]
              have hNA : (bookOf exA s).no =
                  aupd (aupd (bookOf ex s).no pn0
                    (fun lvl => { lvl with orders := r1.sellers }) ⟨0, []⟩) pn0
                    (fun lvl => { lvl with total :=
                      (((alookup (bookOf ex s).no pn0).getD ⟨0, []⟩).total -
                        qmin ((alookup (bookOf ex s).yes py0).getD ⟨0, []⟩).total
                          ((alookup (bookOf ex s).no pn0).getD ⟨0, []⟩).total) }) ⟨0, []⟩ := by
                rw [hexA]
                simp only [bookOf_eraseLevel, bookOf_setLevelTotal, bookOf_setLevelOrders,
                  hbr, SymBook.side, yes_setSide_yes, no_setSide_yes, yes_setSide_no,
                  no_setSide_no]
              refine ih exA ytl (pn0 :: ntl) ?_ ?_ (List.Sorted.of_cons hsY) hsN ?_ ?_ h
              · rw [hYA]
                exact nodup_keys_aerase (nodup_keys_aupd (nodup_keys_aupd hndY))
              · rw [hNA]
                exact nodup_keys_aupd (nodup_keys_aupd hndN)
              · intro k hk
                rw [hYA] at hk
                obtain ⟨hk1, hk2⟩ := mem_validKeys.mp hk
                have hne : k ≠ py0 :=
                  ne_of_mem_keys_aerase (nodup_keys_aupd (nodup_keys_aupd hndY)) hk1
                have hk3 := mem_keys_aerase hk1
                rcases mem_keys_aupd hk3 with hk4 | hk4
                · rcases mem_keys_aupd hk4 with hk5 | hk5
                  · have := hmY k (mem_validKeys.mpr ⟨hk5, hk2⟩)
                    rcases List.mem_cons.mp this with h' | h'
                    · exact absurd h' hne
                    · exact h'
                  · exact absurd hk5 hne
                · exact absurd hk4 hne
              · intro k hk
                rw [hNA] at hk
                obtain ⟨hk1, hk2⟩ := mem_validKeys.mp hk
                rcases mem_keys_aupd hk1 with hk4 | hk4
                · rcases mem_keys_aupd hk4 with hk5 | hk5
                  · exact hmN k (mem_validKeys.mpr ⟨hk5, hk2⟩)
                  · exact hk5 ▸ List.mem_cons_self pn0 ntl
                · exact hk4 ▸ List.mem_cons_self pn0 ntl
          · rw [if_neg h1] at h ⊢
            set exA := eraseLevel (setLevelTotal (setLevelTotal
                (setLevelOrders (setLevelOrders r1.ex s Outcome.yes py0 r1.buyers)
                  s Outcome.no pn0 r1.sellers)
                s Outcome.yes py0
                (((alookup (bookOf ex s).yes py0).getD ⟨0, []⟩).total -
                  qmin ((alookup (bookOf ex s).yes py0).getD ⟨0, []⟩).total
                    ((alookup (bookOf ex s).no pn0).getD ⟨0, []⟩).total))
                s Outcome.no pn0
                (((alookup (bookOf ex s).no pn0).getD ⟨0, []⟩).total -
                  qmin ((alookup (bookOf ex s).yes py0).getD ⟨0, []⟩).total
                    ((alookup (bookOf ex s).no pn0).getD ⟨0, []⟩).total))
              s Outcome.no pn0 with hexA
            have hYA : (bookOf exA s).yes =
                aupd (aupd (bookOf ex s).yes py0
                  (fun lvl => { lvl with orders := r1.buyers }) ⟨0, []⟩) py0
                  (fun lvl => { lvl with total :=
                    (((alookup (bookOf ex s).yes py0).getD ⟨0, []⟩).total -
                      qmin ((alookup (bookOf ex s).yes py0).getD ⟨0, []⟩).total
                        ((alookup (bookOf ex s).no pn0).getD ⟨0, []⟩).total) }) ⟨0, []⟩ := by
              rw [hexA]
              simp only [bookOf_eraseLevel, bookOf_setLevelTotal, bookOf_setLevelOrders,
                hbr, SymBook.side, yes_setSide_yes, no_setSide_yes, yes_setSide_no,
                no_setSide_no]
            have hNA : (bookOf exA s).no =
                aerase (aupd (aupd (bookOf ex s).no pn0
                  (fun lvl => { lvl with orders := r1.sellers }) ⟨0, []⟩) pn0
                  (fun lvl => { lvl with total :=
                    (((alookup (bookOf ex s).no pn0).getD ⟨0, []⟩).total -
                      qmin ((alookup (bookOf ex s).yes py0).getD ⟨0, []⟩).total
                        ((alookup (bookOf ex s).no pn0).getD ⟨0, []⟩).total) }) ⟨0, []⟩)
                  pn0 := by
              rw [hexA]
              simp only [bookOf_eraseLevel, bookOf_setLevelTotal, bookOf_setLevelOrders,
                hbr, SymBook.side, yes_setSide_yes, no_setSide_yes, yes_setSide_no,
                no_setSide_no]
            refine ih exA (py0 :: ytl) ntl ?_ ?_ hsY (List.Sorted.of_cons hsN) ?_ ?_ h
            · rw [hYA]
              exact nodup_keys_aupd (nodup_keys_aupd hndY)
            · rw [hNA]
              exact nodup_keys_aerase (nodup_keys_aupd (nodup_keys_aupd hndN))
            · intro k hk
              rw [hYA] at hk
              obtain ⟨hk1, hk2⟩ := mem_validKeys.mp hk
              rcases mem_keys_aupd hk1 with hk4 | hk4
              · rcases mem_keys_aupd hk4 with hk5 | hk5
                · exact hmY k (mem_validKeys.mpr ⟨hk5, hk2⟩)
                · exact hk5 ▸ List.mem_cons_self py0 ytl
              · exact hk4 ▸ List.mem_cons_self py0 ytl
            · intro k hk
              rw [hNA] at hk
              obtain ⟨hk1, hk2⟩ := mem_validKeys.mp hk
              have hne : k ≠ pn0 :=
                ne_of_mem_keys_aerase (nodup_keys_aupd (nodup_keys_aupd hndN)) hk1
              have hk3 := mem_keys_aerase hk1
              rcases mem_keys_aupd hk3 with hk4 | hk4
              · rcases mem_keys_aupd hk4 with hk5 | hk5
                · have := hmN k (mem_validKeys.mpr ⟨hk5, hk2⟩)
                  rcases List.mem_cons.mp this with h' | h'
                  · exact absurd h' hne
                  · exact h'
                · exact absurd hk5 hne
              · exact absurd hk4 hne
      · rw [if_neg hc] at h ⊢
        intro py hpy pn hpn
        have hpy' : py ≤ py0 := sorted_ge_head hsY (hmY py hpy)
        have hpn' : pn0 ≤ pn := sorted_le_head hsN (hmN pn hpn)
        calc py ≤ py0 := hpy'
          _ < pn0 := lt_of_not_ge hc
          _ ≤ pn := hpn'

/-- After a non-crashing `matchOrders`, no crossing remains among
valid-priced levels (assuming the book sides had no duplicate price keys). -/
theorem matchOrders_separation (ex : Exchange) (s : String)
    (hndY : ((bookOf ex s).yes.map Prod.fst).Nodup)
    (hndN : ((bookOf ex s).no.map Prod.fst).Nodup)
    (hcr : (matchOrders ex s).crashed = false) :
    ∀ py ∈ validKeys (bookOf (matchOrders ex s).ex s).yes,
      ∀ pn ∈ validKeys (bookOf (matchOrders ex s).ex s).no, py < pn := by
  by_cases hb : (alookup ex.book s).isNone
  · simp only [matchOrders, if_pos hb]
    intro py hpy pn hpn
    have hbe : bookOf ex s = emptyBook := by
      simp [bookOf, Option.isNone_iff_eq_none.mp hb]
    rw [hbe] at hpy
    simp [validKeys, emptyBook] at hpy
  · simp only [matchOrders, if_neg hb] at hcr ⊢
    refine sweep_separation s _ ex _ _ hndY hndN ?_ ?_ ?_ ?_ hcr
    · exact List.sorted_insertionSort _ _
    · exact List.sorted_insertionSort _ _
    · intro k hk
      exact (List.perm_insertionSort _ _).mem_iff.mpr hk
    · intro k hk
      exact (List.perm_insertionSort _ _).mem_iff.mpr hk

/-- Claim C6 (counterexample): a buy runs no book-sweep pass. On an
empty book, `u1` buys YES 10 @ 8 and `u2` buys NO 10 @ 3; both buys
succeed (rest as pending bids), yet the book is left crossed:
max YES bid 8 and min NO bid 3 do not satisfy 8 < 3, and a book-sweep
would fire on them (3 ≤ 8). -/
theorem claim6_counterexample :
    (buyStock exC6 "u1" "s" 10 8 Outcome.yes).2 = Res.partMatch ∧
    (buyStock (buyStock exC6 "u1" "s" 10 8 Outcome.yes).1 "u2" "s" 10 3
      Outcome.no).2 = Res.partMatch ∧
    (8 : ℚ) ∈ validKeys (bookOf (buyStock (buyStock exC6 "u1" "s" 10 8
      Outcome.yes).1 "u2" "s" 10 3 Outcome.no).1 "s").yes ∧
    (3 : ℚ) ∈ validKeys (bookOf (buyStock (buyStock exC6 "u1" "s" 10 8
      Outcome.yes).1 "u2" "s" 10 3 Outcome.no).1 "s").no ∧
    ¬ ((8 : ℚ) < 3) := by decide

/-- Claim C6 (amended): after a successful `sell` (result
`sellRested`), the book-sweep has run and no crossing remains — every
valid-priced resting YES bid is strictly below every valid-priced
resting NO bid of that symbol (given duplicate-free price keys).
`buy`, however, runs no book-sweep pass and can leave a crossing. -/
theorem claim6_sell_no_crossing (ex0 : Exchange) (u s : String) (q p : ℚ)
    (S : Outcome)
    (hndY : ((bookOf ex0 s).yes.map Prod.fst).Nodup)
    (hndN : ((bookOf ex0 s).no.map Prod.fst).Nodup)
    (hok : (placeSellOrder ex0 u s q p S).2 = Res.sellRested) :
    ∀ py ∈ validKeys (bookOf (placeSellOrder ex0 u s q p S).1 s).yes,
      ∀ pn ∈ validKeys (bookOf (placeSellOrder ex0 u s q p S).1 s).no,
        py < pn := by
  simp only [placeSellOrder] at hok ⊢
  by_cases hv : validateInput u s q p = true
  · rw [if_neg (not_not_intro hv)] at hok ⊢
    cases hsb : alookup (stocksOf (initialiseUserBalances ex0 u) u) s with
    | none =>
      simp only [hsb] at hok
      simp at hok
    | some sb =>
      simp only [hsb] at hok ⊢
      by_cases hq : (sb.get S).quantity < q
      · rw [if_pos hq] at hok
        simp at hok
      · rw [if_neg hq] at hok ⊢
        by_cases hcr : (matchOrders (updateOrderbook
            (updStock (initialiseUserBalances ex0 u) u s
              (fun b => b.set S ⟨(b.get S).quantity - q, (b.get S).locked + q⟩))
            s S p q u) s).crashed = true
        · rw [if_pos hcr] at hok
          simp at hok
        · rw [if_neg hcr] at hok ⊢
          have hcr' : (matchOrders (updateOrderbook
              (updStock (initialiseUserBalances ex0 u) u s
                (fun b => b.set S ⟨(b.get S).quantity - q, (b.get S).locked + q⟩))
              s S p q u) s).crashed = false := by
            revert hcr
            cases (matchOrders (updateOrderbook
              (updStock (initialiseUserBalances ex0 u) u s
                (fun b => b.set S ⟨(b.get S).quantity - q, (b.get S).locked + q⟩))
              s S p q u) s).crashed <;> simp
          have hb3 := bookOf_updateOrderbook
            (updStock (initialiseUserBalances ex0 u) u s
              (fun b => b.set S ⟨(b.get S).quantity - q, (b.get S).locked + q⟩))
            s S p q u
          have h1 : ((bookOf (updateOrderbook
              (updStock (initialiseUserBalances ex0 u) u s
                (fun b => b.set S ⟨(b.get S).quantity - q, (b.get S).locked + q⟩))
              s S p q u) s).yes.map Prod.fst).Nodup := by
            rw [hb3]
            cases S
            · exact nodup_keys_aupd (nodup_keys_aensure hndY)
            · exact hndY
          have h2 : ((bookOf (updateOrderbook
              (updStock (initialiseUserBalances ex0 u) u s
                (fun b => b.set S ⟨(b.get S).quantity - q, (b.get S).locked + q⟩))
              s S p q u) s).no.map Prod.fst).Nodup := by
            rw [hb3]
            cases S
            · exact hndN
            · exact nodup_keys_aupd (nodup_keys_aensure hndN)
          exact matchOrders_separation _ s h1 h2 hcr'
  · rw [if_pos hv] at hok
    simp at hok

/-- Claim C6 (witness): on `exW6`, `E` sells YES 1 @ 3 into a book with
one NO bid at 7; the sell rests and the separation theorem instantiated
at the remaining levels 3 (YES) and 7 (NO) yields 3 < 7. -/
theorem claim6_witness :
    (placeSellOrder exW6 "E" "s" 1 3 Outcome.yes).2 = Res.sellRested ∧
    (3 : ℚ) < 7 :=
  ⟨by decide,
    claim6_sell_no_crossing exW6 "E" "s" 1 3 Outcome.yes (by decide) (by decide)
      (by decide) 3 (by decide) 7 (by decide)⟩

end Probo
